import Mathlib

/-
Verification of the Carbon-Vault data pipeline core
(normalization, validation, deduplication, multi-format storage).

This file is a shallow embedding of the Python sources:
  src/data-pipeline/config.py
  src/data-pipeline/pipeline/processors/normalizer.py
  src/data-pipeline/pipeline/storage/storage.py

Python values that can occur in a raw or canonical record (strings, numbers,
booleans, None, lists, dictionaries, datetime objects) are represented by the
inductive type `Value`; Python dictionaries by association lists with string
keys; Python floats by exact rationals; raising an exception by returning
`Option.none` or `Except.error`.  Stateful pieces (the current clock, the
previous content of an output file, the SQLite table) are passed explicitly.
-/

/-- Model of a Python value as it occurs in raw and canonical records:
a string, a number (int or float, represented exactly as a rational), a
boolean, `None`, a list, a dictionary with string keys, or a
`datetime.datetime` object represented by the string its `isoformat()`
method would return. -/
inductive Value where
  | str (s : String)
  | num (q : ℚ)
  | boolv (b : Bool)
  | nullv
  | vlist (l : List Value)
  | vdict (d : List (String × Value))
  | pydt (iso : String)
  deriving Repr

mutual

/-- Structural boolean equality on `Value` (Python `==` restricted to the
shapes modelled here). -/
def Value.beq : Value → Value → Bool
  | .str a, .str b => a == b
  | .num a, .num b => a == b
  | .boolv a, .boolv b => a == b
  | .nullv, .nullv => true
  | .vlist a, .vlist b => beqValueList a b
  | .vdict a, .vdict b => beqValueDict a b
  | .pydt a, .pydt b => a == b
  | _, _ => false

/-- Pointwise equality of lists of values. -/
def beqValueList : List Value → List Value → Bool
  | [], [] => true
  | a :: as, b :: bs => a.beq b && beqValueList as bs
  | _, _ => false

/-- Pointwise equality of association lists of values. -/
def beqValueDict : List (String × Value) → List (String × Value) → Bool
  | [], [] => true
  | (k, a) :: as, (k2, b) :: bs => k == k2 && a.beq b && beqValueDict as bs
  | _, _ => false

end

mutual

theorem Value.beq_iff : ∀ a b : Value, Value.beq a b = true ↔ a = b
  | .str a, .str b => by simp [Value.beq]
  | .str a, .num b => by simp [Value.beq]
  | .str a, .boolv b => by simp [Value.beq]
  | .str a, .nullv => by simp [Value.beq]
  | .str a, .vlist b => by simp [Value.beq]
  | .str a, .vdict b => by simp [Value.beq]
  | .str a, .pydt b => by simp [Value.beq]
  | .num a, .str b => by simp [Value.beq]
  | .num a, .num b => by simp [Value.beq]
  | .num a, .boolv b => by simp [Value.beq]
  | .num a, .nullv => by simp [Value.beq]
  | .num a, .vlist b => by simp [Value.beq]
  | .num a, .vdict b => by simp [Value.beq]
  | .num a, .pydt b => by simp [Value.beq]
  | .boolv a, .str b => by simp [Value.beq]
  | .boolv a, .num b => by simp [Value.beq]
  | .boolv a, .boolv b => by simp [Value.beq]
  | .boolv a, .nullv => by simp [Value.beq]
  | .boolv a, .vlist b => by simp [Value.beq]
  | .boolv a, .vdict b => by simp [Value.beq]
  | .boolv a, .pydt b => by simp [Value.beq]
  | .nullv, .str b => by simp [Value.beq]
  | .nullv, .num b => by simp [Value.beq]
  | .nullv, .boolv b => by simp [Value.beq]
  | .nullv, .nullv => by simp [Value.beq]
  | .nullv, .vlist b => by simp [Value.beq]
  | .nullv, .vdict b => by simp [Value.beq]
  | .nullv, .pydt b => by simp [Value.beq]
  | .vlist a, .str b => by simp [Value.beq]
  | .vlist a, .num b => by simp [Value.beq]
  | .vlist a, .boolv b => by simp [Value.beq]
  | .vlist a, .nullv => by simp [Value.beq]
  | .vlist a, .vlist b => by simp [Value.beq, beqValueList_iff a b]
  | .vlist a, .vdict b => by simp [Value.beq]
  | .vlist a, .pydt b => by simp [Value.beq]
  | .vdict a, .str b => by simp [Value.beq]
  | .vdict a, .num b => by simp [Value.beq]
  | .vdict a, .boolv b => by simp [Value.beq]
  | .vdict a, .nullv => by simp [Value.beq]
  | .vdict a, .vlist b => by simp [Value.beq]
  | .vdict a, .vdict b => by simp [Value.beq, beqValueDict_iff a b]
  | .vdict a, .pydt b => by simp [Value.beq]
  | .pydt a, .str b => by simp [Value.beq]
  | .pydt a, .num b => by simp [Value.beq]
  | .pydt a, .boolv b => by simp [Value.beq]
  | .pydt a, .nullv => by simp [Value.beq]
  | .pydt a, .vlist b => by simp [Value.beq]
  | .pydt a, .vdict b => by simp [Value.beq]
  | .pydt a, .pydt b => by simp [Value.beq]

theorem beqValueList_iff : ∀ a b : List Value, beqValueList a b = true ↔ a = b
  | [], [] => by simp [beqValueList]
  | [], _ :: _ => by simp [beqValueList]
  | _ :: _, [] => by simp [beqValueList]
  | a :: as, b :: bs => by
      simp [beqValueList, Value.beq_iff a b, beqValueList_iff as bs]

theorem beqValueDict_iff : ∀ a b : List (String × Value), beqValueDict a b = true ↔ a = b
  | [], [] => by simp [beqValueDict]
  | [], _ :: _ => by simp [beqValueDict]
  | _ :: _, [] => by simp [beqValueDict]
  | (k, a) :: as, (k2, b) :: bs => by
      simp only [beqValueDict, Bool.and_eq_true, beq_iff_eq, Value.beq_iff a b,
        beqValueDict_iff as bs, List.cons.injEq, Prod.mk.injEq]

end

instance : DecidableEq Value := fun a b => decidable_of_iff _ (Value.beq_iff a b)

/-- A Python dictionary with string keys, as used for both raw and canonical
records. -/
abbrev Dict := List (String × Value)

/-- Python `d.get(k)` / `d[k]` for `k in d`: the value stored under `k`, if
present.  Keys are unique in every dictionary the pipeline constructs, so
taking the first binding is faithful. -/
def dictGet (d : Dict) (k : String) : Option Value :=
  (d.find? (fun p => p.1 = k)).map (·.2)

theorem dictGet_nil (k : String) : dictGet [] k = none := rfl

theorem dictGet_cons (k0 : String) (v : Value) (t : Dict) (k : String) :
    dictGet ((k0, v) :: t) k = if k0 = k then some v else dictGet t k := by
  by_cases h : k0 = k <;> simp [dictGet, List.find?, h]

/-! ## Exact numeric model

Python floats are modelled by exact rationals; `round(x, n)` by round-half-
to-even decimal rounding, which is what `round` implements on the decimal
values at issue here. -/

/-- Floor of a rational as an integer (the denominator of a `Rat` is always
positive, so Euclidean division of the numerator gives the floor). -/
def ratFloor (q : ℚ) : ℤ := q.num / (q.den : ℤ)

/-- Round a rational to the nearest integer, ties going to the even
neighbour (the rule used by Python `round`). -/
def roundHalfEven (q : ℚ) : ℤ :=
  let f := ratFloor q
  let frac := q - (f : ℚ)
  if frac < 1/2 then f
  else if 1/2 < frac then f + 1
  else if 2 ∣ f then f else f + 1

/-- Model of Python `round(q, n)`: round to `n` decimal places, half to
even. -/
def pyRound (n : ℕ) (q : ℚ) : ℚ :=
  (roundHalfEven (q * (10 : ℚ) ^ n) : ℚ) / (10 : ℚ) ^ n

theorem ratFloor_eq_floor (q : ℚ) : ratFloor q = ⌊q⌋ := Rat.floor_def.symm

theorem roundHalfEven_intCast (n : ℤ) : roundHalfEven (n : ℚ) = n := by
  have h : ratFloor (n : ℚ) = n := by rw [ratFloor_eq_floor]; exact Int.floor_intCast n
  simp [roundHalfEven, h]

/-- A value already expressed in whole multiples of `10 ^ (-n)` is fixed by
`pyRound n`; in particular `pyRound n` is idempotent. -/
theorem pyRound_idem (n : ℕ) (q : ℚ) : pyRound n (pyRound n q) = pyRound n q := by
  unfold pyRound
  have hpow : ((10 : ℚ) ^ n) ≠ 0 := by positivity
  rw [div_mul_cancel₀ _ hpow, roundHalfEven_intCast]

namespace ProcessingConfig

/-- Decimal precision for CO2 values (`config.ProcessingConfig`). -/
def DEFAULT_DECIMAL_PLACES : ℕ := 2

/-- Minimum valid CO2 amount in tons (`config.ProcessingConfig`). -/
def MIN_CO2_TONS : ℚ := 1/100

/-- Maximum valid CO2 amount in tons (`config.ProcessingConfig`). -/
def MAX_CO2_TONS : ℚ := 1000000

/-- Fields a canonical record must carry (`config.ProcessingConfig`). -/
def REQUIRED_FIELDS : List String := ["project_id", "co2_tons", "timestamp"]

end ProcessingConfig

/-! ## String primitives

Small character-list implementations of the Python string operations the
pipeline uses (`str.lower`, substring containment via `in`, `str.replace`),
written so that they reduce inside the kernel. -/

/-- Python `s.lower()` (ASCII case folding suffices for the field names at
issue). -/
def toLowerStr (s : String) : String := ⟨s.data.map Char.toLower⟩

/-- Whether `p` is a prefix of `cs`. -/
def charsPrefix : List Char → List Char → Bool
  | [], _ => true
  | _ :: _, [] => false
  | a :: as, b :: bs => a == b && charsPrefix as bs

/-- Whether `needle` occurs as a contiguous substring of `hay`. -/
def charsContains (hay needle : List Char) : Bool :=
  match hay with
  | [] => charsPrefix needle []
  | _ :: t => charsPrefix needle hay || charsContains t needle

/-- Python `needle in hay` on strings. -/
def strContains (hay needle : String) : Bool := charsContains hay.data needle.data

/-- Replace every (non-overlapping, left-to-right) occurrence of `pat` in
`cs` by `rep`; `fuel` bounds the recursion and is always called with at
least the length of `cs`. -/
def replaceAllAux : ℕ → List Char → List Char → List Char → List Char
  | _, [], _, _ => []
  | 0, cs, _, _ => cs
  | fuel + 1, c :: cs, pat, rep =>
      if pat ≠ [] && charsPrefix pat (c :: cs) then
        rep ++ replaceAllAux fuel (List.drop pat.length (c :: cs)) pat rep
      else
        c :: replaceAllAux fuel cs pat rep

/-- Python `s.replace(pat, rep)` (for the non-empty patterns used here). -/
def pyReplace (s pat rep : String) : String :=
  ⟨replaceAllAux s.data.length s.data pat.data rep.data⟩

/-- Decimal digit predicate. -/
def isDigitCh (c : Char) : Bool := '0' ≤ c && c ≤ '9'

/-- Numeric value of a decimal digit character. -/
def digitVal (c : Char) : ℕ := c.toNat - 48

/-- Character for a decimal digit. -/
def digitCh (n : ℕ) : Char := Char.ofNat (48 + n)

/-- Value of a non-empty, all-digit character list. -/
def natOfDigitsAux : List Char → ℕ → Option ℕ
  | [], acc => some acc
  | c :: t, acc => if isDigitCh c then natOfDigitsAux t (10 * acc + digitVal c) else none

def natOfDigits (cs : List Char) : Option ℕ :=
  if cs = [] then none else natOfDigitsAux cs 0

/-- Decimal digits of `n`, least significant first (`fuel ≥ n` suffices). -/
def natDigitsRev : ℕ → ℕ → List Char
  | 0, _ => []
  | fuel + 1, n => if n = 0 then [] else digitCh (n % 10) :: natDigitsRev fuel (n / 10)

/-- Decimal rendering of a natural number. -/
def natRepr (n : ℕ) : String :=
  if n = 0 then "0" else ⟨(natDigitsRev (n + 1) n).reverse⟩

/-- Decimal rendering of an integer. -/
def intRepr (i : ℤ) : String :=
  if i < 0 then "-" ++ natRepr i.natAbs else natRepr i.natAbs

/-- Rendering of a rational.  Model of how Python prints the numbers at
issue: integral values print as integers; a non-integral value is shown as
`num/den` (Python would print a decimal expansion; no claim depends on that
rendering). -/
def qRepr (q : ℚ) : String :=
  if q.den = 1 then intRepr q.num else intRepr q.num ++ "/" ++ natRepr q.den

/-- Model of Python `str(v)` on the value shapes the pipeline passes to it
(identifiers and sources, which are strings or numbers in practice).  The
renderings of lists and dictionaries are placeholders; no claim depends on
them. -/
def pyStr : Value → String
  | .str s => s
  | .num q => qRepr q
  | .boolv b => if b then "True" else "False"
  | .nullv => "None"
  | .vlist _ => "<list>"
  | .vdict _ => "<dict>"
  | .pydt iso => iso

/-- ASCII whitespace (as stripped by Python `float`). -/
def isWsCh (c : Char) : Bool := c == ' ' || c == '\t' || c == '\n' || c == '\r'

/-- Model of Python `float(s)`: optional sign, decimal mantissa with
optional fractional part, optional decimal exponent, surrounded by optional
whitespace.  The special values `inf` and `nan` are not representable as
rationals and yield `none`; records carrying them are dropped downstream by
the bound checks either way. -/
def parsePyFloat (s : String) : Option ℚ :=
  let cs := (s.data.dropWhile isWsCh).reverse.dropWhile isWsCh |>.reverse
  let (sign, cs) : ℚ × List Char :=
    match cs with
    | '+' :: t => (1, t)
    | '-' :: t => (-1, t)
    | _ => (1, cs)
  let intPart := cs.takeWhile isDigitCh
  let cs := cs.drop intPart.length
  let (fracPart, cs) : List Char × List Char :=
    match cs with
    | '.' :: t => (t.takeWhile isDigitCh, t.drop (t.takeWhile isDigitCh).length)
    | _ => ([], cs)
  if intPart = [] ∧ fracPart = [] then none
  else
    let mantissa : ℚ :=
      ((natOfDigitsAux (intPart ++ fracPart) 0).getD 0 : ℚ) / (10 : ℚ) ^ fracPart.length
    match cs with
    | [] => some (sign * mantissa)
    | e :: t =>
        if e == 'e' || e == 'E' then
          let (esign, t) : ℤ × List Char :=
            match t with
            | '+' :: t2 => (1, t2)
            | '-' :: t2 => (-1, t2)
            | _ => (1, t)
          let edig := t.takeWhile isDigitCh
          if edig = [] ∨ t.drop edig.length ≠ [] then none
          else
            let ex : ℤ := esign * ((natOfDigitsAux edig 0).getD 0 : ℤ)
            some (sign * mantissa * (10 : ℚ) ^ ex)
        else none

/-- Model of Python `float(v)` on a record value: numbers pass through,
booleans coerce to `1.0` / `0.0`, strings are parsed, everything else
raises (`none`). -/
def pyFloat : Value → Option ℚ
  | .num q => some q
  | .boolv b => some (if b then 1 else 0)
  | .str s => parsePyFloat s
  | _ => none

/-! ## Datetime model

A model of `datetime.datetime` restricted to what the pipeline observes:
construction by `datetime.fromisoformat` (the Python 3.10 grammar
`YYYY-MM-DD[<sep>HH[:MM[:SS[.fff[fff]]]][{+|-}HH:MM[:SS]]]`, where the
timezone seconds must be zero) and serialization by `isoformat()`.  The
`utcnow()` clock is passed in explicitly wherever the source calls it. -/

structure PyDateTime where
  year : ℕ
  month : ℕ
  day : ℕ
  hour : ℕ
  minute : ℕ
  second : ℕ
  microsecond : ℕ
  tzMinutes : Option ℤ
  deriving DecidableEq, Repr

/-- Gregorian leap-year rule. -/
def isLeapYear (y : ℕ) : Bool := y % 4 = 0 && (y % 100 ≠ 0 || y % 400 = 0)

/-- Days in a month. -/
def daysInMonth (y m : ℕ) : ℕ :=
  if m = 2 then (if isLeapYear y then 29 else 28)
  else if m = 4 ∨ m = 6 ∨ m = 9 ∨ m = 11 then 30
  else 31

/-- Zero-padded fixed-width decimal rendering. -/
def padZ (w n : ℕ) : String :=
  let d := natRepr n
  ⟨List.replicate (w - d.data.length) '0'⟩ ++ d

/-- Model of `datetime.isoformat()`: `YYYY-MM-DDTHH:MM:SS`, plus
`.ffffff` when the microsecond field is non-zero, plus `+HH:MM` / `-HH:MM`
when the value is timezone-aware. -/
def PyDateTime.isoformat (dt : PyDateTime) : String :=
  padZ 4 dt.year ++ "-" ++ padZ 2 dt.month ++ "-" ++ padZ 2 dt.day ++ "T" ++
  padZ 2 dt.hour ++ ":" ++ padZ 2 dt.minute ++ ":" ++ padZ 2 dt.second ++
  (if dt.microsecond = 0 then "" else "." ++ padZ 6 dt.microsecond) ++
  (match dt.tzMinutes with
   | none => ""
   | some m =>
       (if m < 0 then "-" else "+") ++ padZ 2 (m.natAbs / 60) ++ ":" ++ padZ 2 (m.natAbs % 60))

/-- Parse the `YYYY-MM-DD` date prefix, with range checks, returning the
remaining characters. -/
def parseIsoDate : List Char → Option (ℕ × ℕ × ℕ × List Char)
  | y1 :: y2 :: y3 :: y4 :: '-' :: m1 :: m2 :: '-' :: d1 :: d2 :: rest =>
      if isDigitCh y1 && isDigitCh y2 && isDigitCh y3 && isDigitCh y4 &&
         isDigitCh m1 && isDigitCh m2 && isDigitCh d1 && isDigitCh d2 then
        let y := 1000 * digitVal y1 + 100 * digitVal y2 + 10 * digitVal y3 + digitVal y4
        let m := 10 * digitVal m1 + digitVal m2
        let d := 10 * digitVal d1 + digitVal d2
        if 1 ≤ y ∧ 1 ≤ m ∧ m ≤ 12 ∧ 1 ≤ d ∧ d ≤ daysInMonth y m then
          some (y, m, d, rest)
        else none
      else none
  | _ => none

/-- Parse a time body `HH[:MM[:SS[.fff[fff]]]]` (the whole list must be
consumed; fractional parts have exactly three or six digits, as in
Python 3.10). -/
def parseIsoTimeCore (cs : List Char) : Option (ℕ × ℕ × ℕ × ℕ) :=
  match cs with
  | [h1, h2] =>
      if isDigitCh h1 && isDigitCh h2 then
        let h := 10 * digitVal h1 + digitVal h2
        if h ≤ 23 then some (h, 0, 0, 0) else none
      else none
  | [h1, h2, ':', m1, m2] =>
      if isDigitCh h1 && isDigitCh h2 && isDigitCh m1 && isDigitCh m2 then
        let h := 10 * digitVal h1 + digitVal h2
        let m := 10 * digitVal m1 + digitVal m2
        if h ≤ 23 ∧ m ≤ 59 then some (h, m, 0, 0) else none
      else none
  | [h1, h2, ':', m1, m2, ':', s1, s2] =>
      if isDigitCh h1 && isDigitCh h2 && isDigitCh m1 && isDigitCh m2 &&
         isDigitCh s1 && isDigitCh s2 then
        let h := 10 * digitVal h1 + digitVal h2
        let m := 10 * digitVal m1 + digitVal m2
        let s := 10 * digitVal s1 + digitVal s2
        if h ≤ 23 ∧ m ≤ 59 ∧ s ≤ 59 then some (h, m, s, 0) else none
      else none
  | h1 :: h2 :: ':' :: m1 :: m2 :: ':' :: s1 :: s2 :: '.' :: frac =>
      if isDigitCh h1 && isDigitCh h2 && isDigitCh m1 && isDigitCh m2 &&
         isDigitCh s1 && isDigitCh s2 && frac.all isDigitCh then
        let h := 10 * digitVal h1 + digitVal h2
        let m := 10 * digitVal m1 + digitVal m2
        let s := 10 * digitVal s1 + digitVal s2
        if h ≤ 23 ∧ m ≤ 59 ∧ s ≤ 59 then
          if frac.length = 3 then some (h, m, s, 1000 * (natOfDigitsAux frac 0).getD 0)
          else if frac.length = 6 then some (h, m, s, (natOfDigitsAux frac 0).getD 0)
          else none
        else none
      else none
  | _ => none

/-- Split a time-and-offset character list at the first `+` or `-`
(CPython finds the sign character to separate time from timezone). -/
def splitTzSign : List Char → List Char × Option (Char × List Char)
  | [] => ([], none)
  | c :: t =>
      if c == '+' || c == '-' then ([], some (c, t))
      else
        let (pre, tz) := splitTzSign t
        (c :: pre, tz)

/-- Model of `datetime.fromisoformat` (Python 3.10 grammar): mandatory
`YYYY-MM-DD`, optionally one separator character and a time
`HH[:MM[:SS[.fff[fff]]]]`, optionally a timezone offset `{+|-}HH:MM[:SS]`
(offsets with non-zero seconds are outside this model and rejected). -/
def fromisoformat (s : String) : Option PyDateTime := do
  let (y, mo, d, rest) ← parseIsoDate s.data
  match rest with
  | [] => some ⟨y, mo, d, 0, 0, 0, 0, none⟩
  | _sep :: timeChars =>
      let (tc, tzPart) := splitTzSign timeChars
      let (h, mi, se, us) ← parseIsoTimeCore tc
      match tzPart with
      | none => some ⟨y, mo, d, h, mi, se, us, none⟩
      | some (sgn, tzChars) => do
          let (th, tm, ts, tus) ← parseIsoTimeCore tzChars
          if tzChars.length = 2 ∨ ts ≠ 0 ∨ tus ≠ 0 then none
          else
            let mins : ℤ := (th * 60 + tm : ℕ)
            some ⟨y, mo, d, h, mi, se, us, some (if sgn == '-' then -mins else mins)⟩

/-- The check both the pydantic `timestamp` validator and
`DataNormalizer._is_valid_entry` perform:
`datetime.fromisoformat(ts.replace("Z", "+00:00"))` succeeds. -/
def isoParseOk (ts : String) : Bool :=
  (fromisoformat (pyReplace ts "Z" "+00:00")).isSome

/-! ## JSON model

`json.dumps` / `json.loads` as used by the storage layer for the
`location` / `metadata` text blobs and for list-valued CSV cells. -/

/-- Opening brace character. -/
def lbraceCh : Char := Char.ofNat 123

/-- Closing brace character. -/
def rbraceCh : Char := Char.ofNat 125

/-- Escape a string for a JSON string literal (quote and backslash; control
characters do not occur in the data at issue). -/
def jsonEscape (s : String) : String :=
  ⟨s.data.flatMap (fun c => if c == '"' || c == '\\' then ['\\', c] else [c])⟩

/-- JSON string literal for `s`. -/
def jsonQuote (s : String) : String := "\"" ++ jsonEscape s ++ "\""

/-- Comma-join, with Python `json.dumps`'s default item separator. -/
def joinComma : List String → String
  | [] => ""
  | [x] => x
  | x :: rest => x ++ ", " ++ joinComma rest

mutual

/-- Model of Python `json.dumps(v)` (default separators).  A
`datetime` value is not JSON-serializable and raises (`none`). -/
def Value.jsonDumps : Value → Option String
  | .str s => some (jsonQuote s)
  | .num q => some (qRepr q)
  | .boolv b => some (if b then "true" else "false")
  | .nullv => some "null"
  | .vlist l => (jsonDumpsList l).map (fun parts => "[" ++ joinComma parts ++ "]")
  | .vdict d =>
      (jsonDumpsDict d).map (fun parts =>
        String.singleton lbraceCh ++ joinComma parts ++ String.singleton rbraceCh)
  | .pydt _ => none

def jsonDumpsList : List Value → Option (List String)
  | [] => some []
  | v :: rest => do
      let s ← v.jsonDumps
      let tail ← jsonDumpsList rest
      some (s :: tail)

def jsonDumpsDict : List (String × Value) → Option (List String)
  | [] => some []
  | (k, v) :: rest => do
      let s ← v.jsonDumps
      let tail ← jsonDumpsDict rest
      some ((jsonQuote k ++ ": " ++ s) :: tail)

end

/-- JSON whitespace. -/
def isJsonWs (c : Char) : Bool := c == ' ' || c == '\t' || c == '\n' || c == '\r'

def skipWs (cs : List Char) : List Char := cs.dropWhile isJsonWs

/-- Parse the body of a JSON string literal after the opening quote,
returning the string content and the characters after the closing quote.
Handles the `\"` and `\\` escapes (the only escapes `json.dumps`
produces for the data at issue). -/
def parseJsonStrAux : List Char → Option (List Char × List Char)
  | [] => none
  | '"' :: rest => some ([], rest)
  | '\\' :: c :: rest => (parseJsonStrAux rest).map (fun (s, r) => (c :: s, r))
  | c :: rest => (parseJsonStrAux rest).map (fun (s, r) => (c :: s, r))

/-- Characters that may begin or continue a JSON number token. -/
def isNumTokenCh (c : Char) : Bool :=
  isDigitCh c || c == '-' || c == '+' || c == '.' || c == 'e' || c == 'E'

mutual

/-- Recursive-descent JSON value parser; `fuel` bounds the recursion depth
and is called with more fuel than the input length, which suffices since
every descent first consumes at least one character. -/
def jsonParseValue : ℕ → List Char → Option (Value × List Char)
  | 0, _ => none
  | fuel + 1, cs0 =>
      match skipWs cs0 with
      | '"' :: rest => (parseJsonStrAux rest).map (fun (s, r) => (.str ⟨s⟩, r))
      | 't' :: 'r' :: 'u' :: 'e' :: rest => some (.boolv true, rest)
      | 'f' :: 'a' :: 'l' :: 's' :: 'e' :: rest => some (.boolv false, rest)
      | 'n' :: 'u' :: 'l' :: 'l' :: rest => some (.nullv, rest)
      | '[' :: rest =>
          (match skipWs rest with
           | ']' :: r2 => some (.vlist [], r2)
           | r1 => (jsonParseItems fuel r1).map (fun (l, r) => (.vlist l, r)))
      | c :: rest =>
          if c == lbraceCh then
            (match skipWs rest with
             | r1 =>
               if r1.head? = some rbraceCh then some (.vdict [], r1.tail)
               else (jsonParseMembers fuel r1).map (fun (d, r) => (.vdict d, r)))
          else
            let tok := (c :: rest).takeWhile isNumTokenCh
            if tok = [] then none
            else
              (parsePyFloat ⟨tok⟩).map (fun q => (.num q, (c :: rest).drop tok.length))
      | [] => none

/-- Parse one or more comma-separated array items (after any leading
whitespace). -/
def jsonParseItems : ℕ → List Char → Option (List Value × List Char)
  | 0, _ => none
  | fuel + 1, cs => do
      let (v, rest) ← jsonParseValue fuel cs
      match skipWs rest with
      | ',' :: r2 => (jsonParseItems fuel r2).map (fun (l, r) => (v :: l, r))
      | ']' :: r2 => some ([v], r2)
      | _ => none

/-- Parse one or more comma-separated object members (after any leading
whitespace). -/
def jsonParseMembers : ℕ → List Char → Option (List (String × Value) × List Char)
  | 0, _ => none
  | fuel + 1, cs =>
      match skipWs cs with
      | '"' :: rest => do
          let (k, r1) ← parseJsonStrAux rest
          match skipWs r1 with
          | ':' :: r2 => do
              let (v, r3) ← jsonParseValue fuel r2
              (match skipWs r3 with
               | ',' :: r4 => (jsonParseMembers fuel r4).map (fun (d, r) => ((⟨k⟩, v) :: d, r))
               | c :: r4 =>
                   if c == rbraceCh then some ([(⟨k⟩, v)], r4) else none
               | [] => none)
          | _ => none
      | _ => none

end

/-- Model of Python `json.loads(s)`: parse one JSON value surrounded by
optional whitespace; anything else raises (`none`). -/
def jsonLoads (s : String) : Option Value :=
  match jsonParseValue (s.data.length + 1) s.data with
  | some (v, rest) => if skipWs rest = [] then some v else none
  | none => none

/-! ## Normalizer (`pipeline/processors/normalizer.py`)

`DataNormalizer` and the embedded pydantic model `CarbonDataPoint`.
Entries are Python dictionaries (`Dict`); a dropped record (an exception
caught by `normalize`, or a pydantic `ValidationError`) is `none`. -/

namespace DataNormalizer

/-- Field-name priority list of `_extract_co2_tons` (verbatim from the
source, including the duplicated `"co2_tons"` entry). -/
def co2_fields : List String := ["co2_tons", "co2_tons", "co2", "carbon_tons", "emissions_tons"]

/-- Field-name priority list of `_extract_timestamp`. -/
def timestamp_fields : List String := ["timestamp", "datetime", "date", "time", "created_at"]

/-- `DataNormalizer._calculate_co2_from_metrics`: derive CO2 tons from an
`energy_kwh` field at 0.5 tons per MWh, rounded; `0.0` when no energy
field is present; `none` models the `float` conversion raising. -/
def calculate_co2_from_metrics (entry : Dict) : Option ℚ :=
  match dictGet entry "energy_kwh" with
  | some v =>
      (pyFloat v).map (fun e =>
        pyRound ProcessingConfig.DEFAULT_DECIMAL_PLACES (e / 1000 * (1/2)))
  | none => some 0

/-- `DataNormalizer._extract_co2_tons`: first present field of
`co2_fields` wins; a field name containing `kg`/`kilograms` (resp.
`g`/`grams`) after lower-casing divides the value by 1000 (resp.
1000000); the result is rounded; otherwise fall back to
`calculate_co2_from_metrics`. -/
def extract_co2_tons (entry : Dict) : Option ℚ :=
  match co2_fields.find? (fun f => (dictGet entry f).isSome) with
  | some f =>
      match dictGet entry f with
      | some v => do
          let x ← pyFloat v
          let lf := toLowerStr f
          let x :=
            if strContains lf "kg" || strContains lf "kilograms" then x / 1000
            else if strContains lf "g" || strContains lf "grams" then x / 1000000
            else x
          some (pyRound ProcessingConfig.DEFAULT_DECIMAL_PLACES x)
      | none => none
  | none => calculate_co2_from_metrics entry

/-- Loop body of `DataNormalizer._extract_timestamp`: first present
timestamp-like field whose value is a `datetime` (serialized by
`isoformat()`) or a string (ISO-parsed with a trailing `Z` accepted and
re-serialized; passed through verbatim when unparseable); a present field
of any other type falls through to the next field; when nothing matches,
the current `datetime.utcnow()` is used. -/
def extract_timestamp_go (entry : Dict) (now : PyDateTime) : List String → String
  | [] => now.isoformat
  | f :: rest =>
      match dictGet entry f with
      | none => extract_timestamp_go entry now rest
      | some (.pydt iso) => iso
      | some (.str s) =>
          match fromisoformat (pyReplace s "Z" "+00:00") with
          | some dt => dt.isoformat
          | none => s
      | some _ => extract_timestamp_go entry now rest

/-- `DataNormalizer._extract_timestamp`. -/
def extract_timestamp (entry : Dict) (now : PyDateTime) : String :=
  extract_timestamp_go entry now timestamp_fields

/-- View of a value as a Python dictionary, as a pydantic-v1
`Dict[str, Any]` field requires (anything else fails validation). -/
def asPyDict : Value → Option (List (String × Value))
  | .vdict d => some d
  | _ => none

/-- Coercion a pydantic-v1 `str` field applies: strings pass, numbers and
booleans are stringified, anything else fails validation. -/
def coerceStrField : Value → Option String
  | .str s => some s
  | .num q => some (qRepr q)
  | .boolv b => some (if b then "True" else "False")
  | _ => none

/-- Model of constructing `CarbonDataPoint(**normalized).dict()` for the
dictionary `_normalize_entry` builds.  pydantic first checks the field
constraints `ge=MIN_CO2_TONS`, `le=MAX_CO2_TONS` on the incoming
`co2_tons` value, then the `round_co2_tons` validator rounds it; the
`validate_timestamp` validator requires
`datetime.fromisoformat(v.replace("Z", "+00:00"))` to succeed and returns
the string unchanged; `location`/`metadata` must be dictionaries;
`verification_status` is coerced to `str`.  Any failure raises a
`ValidationError` (`none`).  `.dict()` lists the fields in declaration
order. -/
def carbonDataPoint (pid : String) (co2 : ℚ) (ts : String) (src : String)
    (loc meta : Value) (vstat : Value) : Option Dict :=
  if ProcessingConfig.MIN_CO2_TONS ≤ co2 ∧ co2 ≤ ProcessingConfig.MAX_CO2_TONS then
    if isoParseOk ts then
      (asPyDict loc).bind (fun ld =>
        (asPyDict meta).bind (fun md =>
          (coerceStrField vstat).map (fun vs =>
            [("project_id", .str pid),
             ("co2_tons", .num (pyRound ProcessingConfig.DEFAULT_DECIMAL_PLACES co2)),
             ("timestamp", .str ts),
             ("source", .str src),
             ("location", .vdict ld),
             ("metadata", .vdict md),
             ("verification_status", .str vs)])))
    else none
  else none

/-- `DataNormalizer._normalize_entry`: resolve the identifier
(`entry.get("project_id", f"unknown_\x7bentry.get('id', 'unknown')\x7d")`),
extract CO2 and timestamp, default `source`/`location`/`metadata`/
`verification_status`, and validate through `CarbonDataPoint`. -/
def normalize_entry (entry : Dict) (now : PyDateTime) : Option Dict :=
  let pid : Value :=
    (dictGet entry "project_id").getD
      (.str ("unknown_" ++ (match dictGet entry "id" with
                            | some iv => pyStr iv
                            | none => "unknown")))
  do
    let co2 ← extract_co2_tons entry
    let ts := extract_timestamp entry now
    let src := (dictGet entry "source").getD (.str "unknown")
    let loc := (dictGet entry "location").getD (.vdict [])
    let meta := (dictGet entry "metadata").getD (.vdict [])
    let vstat := (dictGet entry "verification_status").getD (.str "pending")
    carbonDataPoint (pyStr pid) co2 ts (pyStr src) loc meta vstat

/-- `DataNormalizer.normalize`: normalize each entry, dropping (with a
logged warning) every entry whose normalization raises. -/
def normalize (raw : List Dict) (now : PyDateTime) : List Dict :=
  raw.filterMap (fun e => normalize_entry e now)

/-- Numeric view of a value under Python
`isinstance(v, (int, float))` (`bool` is an `int` subclass). -/
def pyNumVal : Value → Option ℚ
  | .num q => some q
  | .boolv b => some (if b then 1 else 0)
  | _ => none

/-- `DataNormalizer._is_valid_entry`, with its early returns in source
order: required fields present, `co2_tons` numeric, `> 0`,
`>= MIN_CO2_TONS`, `<= MAX_CO2_TONS`, and the timestamp string parses as
ISO-8601 (a non-string timestamp raises `AttributeError`, caught as
rejection; a `datetime`-typed timestamp would raise an uncaught
`TypeError` in the source and is modelled as rejection — every record the
pipeline passes to validation carries a string timestamp). -/
def is_valid_entry (entry : Dict) : Bool :=
  if ProcessingConfig.REQUIRED_FIELDS.all (fun f => (dictGet entry f).isSome) then
    match pyNumVal ((dictGet entry "co2_tons").getD (.num 0)) with
    | none => false
    | some q =>
        if q ≤ 0 then false
        else if q < ProcessingConfig.MIN_CO2_TONS then false
        else if ProcessingConfig.MAX_CO2_TONS < q then false
        else
          match (dictGet entry "timestamp").getD (.str "") with
          | .str s => isoParseOk s
          | _ => false
  else false

/-- `DataNormalizer.clean`: keep exactly the entries `_is_valid_entry`
accepts. -/
def clean (data : List Dict) : List Dict := data.filter is_valid_entry

/-- The deduplication identity key `(entry.get("project_id"),
entry.get("timestamp"))`. -/
def dedupKey (e : Dict) : Option Value × Option Value :=
  (dictGet e "project_id", dictGet e "timestamp")

/-- Loop of `DataNormalizer.deduplicate` with the `seen` set made
explicit. -/
def deduplicate_go : List (Option Value × Option Value) → List Dict → List Dict
  | _, [] => []
  | seen, e :: rest =>
      if dedupKey e ∈ seen then deduplicate_go seen rest
      else e :: deduplicate_go (dedupKey e :: seen) rest

/-- `DataNormalizer.deduplicate`: keep the first record of each
`(project_id, timestamp)` key, in input order. -/
def deduplicate (data : List Dict) : List Dict := deduplicate_go [] data

end DataNormalizer

/-! ## Storage (`pipeline/storage/storage.py`)

The environment of a `DataStorage.save` call is a `World` that says which
of the per-format writes would raise if executed; the CSV file and the
SQLite table are modelled explicitly; the `created_at` column default
`CURRENT_TIMESTAMP` is passed in as `now`. -/

namespace DataStorage

/-- Failure injection for one `save` call: which underlying format writes
would raise an exception if attempted. -/
structure World where
  jsonFails : Bool
  csvFails : Bool
  sqliteFails : Bool
  backupFails : Bool
  deriving DecidableEq, Repr

/-- The steps of `DataStorage.save`, in source order. -/
inductive SaveStep where
  | backup
  | json
  | csv
  | sqlite
  deriving DecidableEq, Repr

/-- Outcome of one `save` call: the steps that were started, and the step
whose exception aborted the call (if any). -/
structure SaveResult where
  attempted : List SaveStep
  failed : Option SaveStep
  deriving DecidableEq, Repr

/-- `DataStorage.save`: default format list `["json", "csv", "sqlite"]`;
`_create_backup` first (`ENABLE_BACKUP` is `True`; backup exceptions are
swallowed inside `_create_backup`); then `_save_json`, `_save_csv`,
`_save_sqlite` in that order for the selected formats.  Each `_save_*`
logs and **re-raises** its exceptions, so the first failing format write
aborts `save`. -/
def save (w : World) (data : List Dict) (formats : Option (List String)) : SaveResult :=
  let _ := data
  let fs := formats.getD ["json", "csv", "sqlite"]
  if "json" ∈ fs ∧ w.jsonFails then ⟨[.backup, .json], some .json⟩
  else
    let a1 := [SaveStep.backup] ++ (if "json" ∈ fs then [SaveStep.json] else [])
    if "csv" ∈ fs ∧ w.csvFails then ⟨a1 ++ [.csv], some .csv⟩
    else
      let a2 := a1 ++ (if "csv" ∈ fs then [SaveStep.csv] else [])
      if "sqlite" ∈ fs ∧ w.sqliteFails then ⟨a2 ++ [.sqlite], some .sqlite⟩
      else ⟨a2 ++ (if "sqlite" ∈ fs then [SaveStep.sqlite] else []), none⟩

/-- Whether a step's underlying write would raise in world `w`. -/
def stepFails (w : World) : SaveStep → Bool
  | .backup => w.backupFails
  | .json => w.jsonFails
  | .csv => w.csvFails
  | .sqlite => w.sqliteFails

/-- The format steps `save` would consider, in source order, restricted to
the selected format names. -/
def selectedSteps (fs : List String) : List SaveStep :=
  (if "json" ∈ fs then [SaveStep.json] else []) ++
  (if "csv" ∈ fs then [SaveStep.csv] else []) ++
  (if "sqlite" ∈ fs then [SaveStep.sqlite] else [])

/-- Prefix of a list up to and including the first element satisfying
`p`. -/
def takeUntilIncl (p : α → Bool) : List α → List α
  | [] => []
  | a :: t => if p a then [a] else a :: takeUntilIncl p t

end DataStorage

/-! ### CSV -/

namespace DataStorage

/-- Content of the tabular output file: sorted header of all (flattened)
field names, and one flattened record per row. -/
structure CsvFile where
  header : List String
  rows : List Dict
  deriving DecidableEq, Repr

/-- How one `_save_csv` call ended: early no-op warning on an empty batch,
a completed write, or a raised exception. -/
inductive CsvOutcome where
  | warnedEmpty
  | wrote
  | raisedError
  deriving DecidableEq, Repr

/-- `DataStorage._flatten_dict`: join nested dictionary keys with `_`,
serialize list values with `json.dumps` (which raises — `none` — on
non-serializable content), keep other values as they are. -/
def flatten_dict (d : Dict) (parentKey : String) : Option Dict :=
  match d with
  | [] => some []
  | (k, v) :: rest =>
      let newKey := if parentKey = "" then k else parentKey ++ "_" ++ k
      match v with
      | .vdict sub => do
          let flatSub ← flatten_dict sub newKey
          let tail ← flatten_dict rest parentKey
          some (flatSub ++ tail)
      | .vlist l => do
          let s ← Value.jsonDumps (.vlist l)
          let tail ← flatten_dict rest parentKey
          some ((newKey, .str s) :: tail)
      | _ => (flatten_dict rest parentKey).map (fun tail => (newKey, v) :: tail)

/-- Insertion into a lexicographically sorted list of strings. -/
def insertStr (x : String) : List String → List String
  | [] => [x]
  | y :: t => if x ≤ y then x :: y :: t else y :: insertStr x t

/-- Lexicographic insertion sort (model of Python `sorted` on the
de-duplicated field-name set). -/
def sortStrings (l : List String) : List String := l.foldr insertStr []

/-- `DataStorage._save_csv` on a previous file state: an empty batch
writes nothing, leaves the previous file, and logs a warning; otherwise
the union of raw and flattened field names (a set, then sorted) becomes
the header and the flattened records the rows; a `json.dumps` failure
while flattening raises before the file is opened. -/
def save_csv (data : List Dict) (prev : Option CsvFile) : Option CsvFile × CsvOutcome :=
  if data = [] then (prev, .warnedEmpty)
  else
    match data.mapM (fun r => flatten_dict r "") with
    | none => (prev, .raisedError)
    | some flatRows =>
        let names :=
          data.flatMap (fun r => r.map (·.1)) ++ flatRows.flatMap (fun r => r.map (·.1))
        (some ⟨sortStrings names.dedup, flatRows⟩, .wrote)

end DataStorage

/-! ### SQLite -/

namespace DataStorage

/-- One row of the `carbon_data` table. -/
structure SqliteRow where
  id : ℕ
  project_id : Value
  co2_tons : Value
  timestamp : Value
  source : Value
  location : Option String
  metadata : Option String
  verification_status : Value
  created_at : String
  deriving DecidableEq, Repr

/-- The `carbon_data` table: its rows and the next `AUTOINCREMENT` id. -/
structure SqliteTable where
  rows : List SqliteRow
  nextId : ℕ
  deriving DecidableEq, Repr

/-- The table `CREATE TABLE IF NOT EXISTS` creates when absent. -/
def emptyTable : SqliteTable := ⟨[], 1⟩

/-- A bound parameter destined for a `NOT NULL` column: missing
(`record.get` returned `None`) or explicit `None` violates the constraint
(`none`). -/
def notNullVal : Option Value → Option Value
  | none => none
  | some .nullv => none
  | some v => some v

/-- The column values `_save_sqlite` binds for one record (project id,
CO2, timestamp, source, the two `json.dumps` blobs, verification status);
`none` models a constraint violation or serialization error aborting the
transaction. -/
def recordRowData (rec : Dict) :
    Option (Value × Value × Value × Value × String × String × Value) := do
  let pid ← notNullVal (dictGet rec "project_id")
  let co2 ← notNullVal (dictGet rec "co2_tons")
  let ts ← notNullVal (dictGet rec "timestamp")
  let src ← notNullVal (dictGet rec "source")
  let loc ← Value.jsonDumps ((dictGet rec "location").getD (.vdict []))
  let meta ← Value.jsonDumps ((dictGet rec "metadata").getD (.vdict []))
  let vstat := (dictGet rec "verification_status").getD (.str "pending")
  some (pid, co2, ts, src, loc, meta, vstat)

/-- `INSERT OR REPLACE` under the `UNIQUE(project_id, timestamp)`
constraint: delete any row with the same key, insert the new row (with a
fresh internal id). -/
def upsertRow (rows : List SqliteRow) (r : SqliteRow) : List SqliteRow :=
  rows.filter (fun s => ¬ (s.project_id = r.project_id ∧ s.timestamp = r.timestamp)) ++ [r]

/-- Loop of `_save_sqlite` over the batch; an error rolls the transaction
back (the caller keeps the pre-call table). -/
def save_sqlite_go (now : String) : List Dict → SqliteTable → Except Unit SqliteTable
  | [], t => .ok t
  | rec :: rest, t =>
      match recordRowData rec with
      | none => .error ()
      | some (pid, co2, ts, src, loc, meta, vstat) =>
          save_sqlite_go now rest
            ⟨upsertRow t.rows ⟨t.nextId, pid, co2, ts, src, some loc, some meta, vstat, now⟩,
             t.nextId + 1⟩

/-- `DataStorage._save_sqlite` as a function of the current table and the
write clock `now` (the `created_at` default). -/
def save_sqlite (data : List Dict) (now : String) (t : SqliteTable) : Except Unit SqliteTable :=
  save_sqlite_go now data t

/-- SQLite storage-class rank used by `ORDER BY` (`NULL` before numbers
before text before everything else). -/
def sqliteValRank : Value → ℕ
  | .nullv => 0
  | .num _ => 1
  | .boolv _ => 1
  | .str _ => 2
  | _ => 3

/-- Numeric content of a rank-1 value. -/
def vnum : Value → ℚ
  | .num q => q
  | .boolv b => if b then 1 else 0
  | _ => 0

/-- Text content of a rank-2 value. -/
def vstr : Value → String
  | .str s => s
  | _ => ""

/-- Model of the SQLite `ORDER BY` comparison on stored values:
lexicographically by storage-class rank, then numerically, then by text
(values of equal non-numeric, non-text rank compare equal in this
model). -/
def sqliteValLe (a b : Value) : Bool :=
  decide (sqliteValRank a < sqliteValRank b ∨
    (sqliteValRank a = sqliteValRank b ∧
      (vnum a < vnum b ∨ (vnum a = vnum b ∧ vstr a ≤ vstr b))))

/-- The `ORDER BY timestamp DESC` comparison as a relation on rows. -/
def rowDescRel (a b : SqliteRow) : Prop := sqliteValLe b.timestamp a.timestamp = true

instance : DecidableRel rowDescRel := fun a b => by rw [rowDescRel]; infer_instance

/-- `ORDER BY timestamp DESC` (modelled as a sort by `rowDescRel`). -/
def sortRowsDesc (rows : List SqliteRow) : List SqliteRow :=
  List.insertionSort rowDescRel rows

/-- The `LIMIT` clause: absent when the Python `limit` argument is falsy
(`None` or `0`); a negative SQLite limit also means no limit. -/
def applyLimit : Option ℤ → List SqliteRow → List SqliteRow
  | none, rows => rows
  | some n, rows => if n ≤ 0 then rows else rows.take n.toNat

/-- Reconstruction of one nested mapping from its text blob in
`load_sqlite`: a `NULL` or empty blob is falsy and degrades to `{}`; a
non-empty blob is `json.loads`-parsed, raising (`error`) on corruption. -/
def restoreBlob : Option String → Except Unit Value
  | none => .ok (.vdict [])
  | some s =>
      if s = "" then .ok (.vdict [])
      else match jsonLoads s with
           | some v => .ok v
           | none => .error ()

/-- The record dictionary `load_sqlite` builds from one row. -/
def rowRecord (r : SqliteRow) : Except Unit Dict := do
  let loc ← restoreBlob r.location
  let meta ← restoreBlob r.metadata
  .ok [("project_id", r.project_id), ("co2_tons", r.co2_tons),
       ("timestamp", r.timestamp), ("source", r.source),
       ("location", loc), ("metadata", meta),
       ("verification_status", r.verification_status)]

/-- The row loop of `load_sqlite`, building the record list; the first
raising row aborts the whole loop. -/
def loadRowsLoop : List SqliteRow → Except Unit (List Dict)
  | [] => .ok []
  | r :: rest => do
      let d ← rowRecord r
      let tail ← loadRowsLoop rest
      .ok (d :: tail)

/-- `DataStorage.load_sqlite`: select all rows ordered by timestamp
descending, apply the optional limit, rebuild the record dictionaries;
any exception while doing so is caught at the top and yields `[]`. -/
def load_sqlite (t : SqliteTable) (limit : Option ℤ) : List Dict :=
  match loadRowsLoop (applyLimit limit (sortRowsDesc t.rows)) with
  | .ok l => l
  | .error _ => []

end DataStorage

/-! ## C1: deduplication keys on `(project_id, timestamp)`, first wins -/

/-- Specification-side description of deduplication: the output keeps, for
each identity key, exactly the first input record bearing it, in input
order. -/
def firstOccurrences : List Dict → List Dict
  | [] => []
  | e :: rest =>
      e :: firstOccurrences
        (rest.filter (fun x => decide (DataNormalizer.dedupKey x ≠ DataNormalizer.dedupKey e)))
termination_by l => l.length
decreasing_by simp_wf; exact Nat.lt_succ_of_le (List.length_filter_le _ _)

theorem dedup_go_spec (n : ℕ) :
    ∀ (l : List Dict) (seen : List (Option Value × Option Value)), l.length ≤ n →
      DataNormalizer.deduplicate_go seen l =
        firstOccurrences (l.filter (fun x => decide (DataNormalizer.dedupKey x ∉ seen))) := by
  induction n with
  | zero =>
      intro l seen hl
      have : l = [] := List.length_eq_zero.mp (Nat.le_zero.mp hl)
      subst this
      simp [DataNormalizer.deduplicate_go, firstOccurrences]
  | succ n ih =>
      intro l seen hl
      cases l with
      | nil => simp [DataNormalizer.deduplicate_go, firstOccurrences]
      | cons e rest =>
          by_cases hk : DataNormalizer.dedupKey e ∈ seen
          · have h1 : DataNormalizer.deduplicate_go seen (e :: rest) =
                DataNormalizer.deduplicate_go seen rest := by
              simp [DataNormalizer.deduplicate_go, hk]
            have h2 : (e :: rest).filter (fun x => decide (DataNormalizer.dedupKey x ∉ seen)) =
                rest.filter (fun x => decide (DataNormalizer.dedupKey x ∉ seen)) := by
              simp [List.filter, hk]
            rw [h1, h2, ih rest seen (Nat.le_of_succ_le_succ hl)]
          · have h1 : DataNormalizer.deduplicate_go seen (e :: rest) =
                e :: DataNormalizer.deduplicate_go (DataNormalizer.dedupKey e :: seen) rest := by
              simp [DataNormalizer.deduplicate_go, hk]
            have h2 : (e :: rest).filter (fun x => decide (DataNormalizer.dedupKey x ∉ seen)) =
                e :: rest.filter (fun x => decide (DataNormalizer.dedupKey x ∉ seen)) := by
              simp [List.filter, hk]
            rw [h1, h2, ih rest _ (Nat.le_of_succ_le_succ hl)]
            rw [show firstOccurrences
                (e :: rest.filter (fun x => decide (DataNormalizer.dedupKey x ∉ seen))) =
                e :: firstOccurrences
                  ((rest.filter (fun x => decide (DataNormalizer.dedupKey x ∉ seen))).filter
                    (fun x => decide (DataNormalizer.dedupKey x ≠ DataNormalizer.dedupKey e)))
              from by simp [firstOccurrences]]
            congr 1
            rw [List.filter_filter]
            refine congrArg firstOccurrences
              (congrArg (fun p => List.filter p rest) (funext fun x => ?_))
            by_cases hx1 : DataNormalizer.dedupKey x = DataNormalizer.dedupKey e <;>
              by_cases hx2 : DataNormalizer.dedupKey x ∈ seen <;>
              simp [hx1, hx2]

theorem deduplicate_eq_firstOccurrences (l : List Dict) :
    DataNormalizer.deduplicate l = firstOccurrences l := by
  rw [DataNormalizer.deduplicate, dedup_go_spec l.length l [] le_rfl]
  congr 1
  rw [List.filter_eq_self.mpr]
  intro a _
  simp

theorem firstOccurrences_length_le (n : ℕ) :
    ∀ l : List Dict, l.length ≤ n → (firstOccurrences l).length ≤ l.length := by
  induction n with
  | zero =>
      intro l hl
      have : l = [] := List.length_eq_zero.mp (Nat.le_zero.mp hl)
      subst this
      simp [firstOccurrences]
  | succ n ih =>
      intro l hl
      cases l with
      | nil => simp [firstOccurrences]
      | cons e rest =>
          rw [show firstOccurrences (e :: rest) = e :: firstOccurrences
              (rest.filter (fun x => decide (DataNormalizer.dedupKey x ≠ DataNormalizer.dedupKey e)))
            from by simp [firstOccurrences]]
          have hlen := List.length_filter_le
            (fun x => decide (DataNormalizer.dedupKey x ≠ DataNormalizer.dedupKey e)) rest
          have := ih (rest.filter (fun x => decide (DataNormalizer.dedupKey x ≠ DataNormalizer.dedupKey e)))
            (le_trans hlen (Nat.le_of_succ_le_succ hl))
          simp only [List.length_cons]
          omega

theorem firstOccurrences_filter_comm (pk : Option Value × Option Value → Bool) (n : ℕ) :
    ∀ l : List Dict, l.length ≤ n →
      firstOccurrences (l.filter (fun x => pk (DataNormalizer.dedupKey x))) =
        (firstOccurrences l).filter (fun x => pk (DataNormalizer.dedupKey x)) := by
  induction n with
  | zero =>
      intro l hl
      have : l = [] := List.length_eq_zero.mp (Nat.le_zero.mp hl)
      subst this
      simp [firstOccurrences]
  | succ n ih =>
      intro l hl
      cases l with
      | nil => simp [firstOccurrences]
      | cons e rest =>
          have hrest : rest.length ≤ n := Nat.le_of_succ_le_succ hl
          rw [show firstOccurrences (e :: rest) = e :: firstOccurrences
              (rest.filter (fun x => decide (DataNormalizer.dedupKey x ≠ DataNormalizer.dedupKey e)))
            from by simp [firstOccurrences]]
          by_cases hpe : pk (DataNormalizer.dedupKey e) = true
          · have h1 : (e :: rest).filter (fun x => pk (DataNormalizer.dedupKey x)) =
                e :: rest.filter (fun x => pk (DataNormalizer.dedupKey x)) := by
              simp [List.filter, hpe]
            rw [h1]
            rw [show firstOccurrences (e :: rest.filter (fun x => pk (DataNormalizer.dedupKey x))) =
                e :: firstOccurrences
                  ((rest.filter (fun x => pk (DataNormalizer.dedupKey x))).filter
                    (fun x => decide (DataNormalizer.dedupKey x ≠ DataNormalizer.dedupKey e)))
              from by simp [firstOccurrences]]
            have h2 : (e :: firstOccurrences
                (rest.filter (fun x => decide (DataNormalizer.dedupKey x ≠ DataNormalizer.dedupKey e)))).filter
                  (fun x => pk (DataNormalizer.dedupKey x)) =
                e :: (firstOccurrences
                  (rest.filter (fun x => decide (DataNormalizer.dedupKey x ≠ DataNormalizer.dedupKey e)))).filter
                  (fun x => pk (DataNormalizer.dedupKey x)) := by
              simp [List.filter, hpe]
            rw [h2]
            congr 1
            rw [← ih (rest.filter (fun x => decide (DataNormalizer.dedupKey x ≠ DataNormalizer.dedupKey e)))
              (le_trans (List.length_filter_le _ _) hrest)]
            rw [List.filter_filter, List.filter_filter]
            exact congrArg firstOccurrences
              (congrArg (fun p => List.filter p rest) (funext fun x => Bool.and_comm _ _))
          · have hpe2 : pk (DataNormalizer.dedupKey e) = false := by
              simpa using hpe
            have h1 : (e :: rest).filter (fun x => pk (DataNormalizer.dedupKey x)) =
                rest.filter (fun x => pk (DataNormalizer.dedupKey x)) := by
              simp [List.filter, hpe2]
            rw [h1]
            have h2 : (e :: firstOccurrences
                (rest.filter (fun x => decide (DataNormalizer.dedupKey x ≠ DataNormalizer.dedupKey e)))).filter
                  (fun x => pk (DataNormalizer.dedupKey x)) =
                (firstOccurrences
                  (rest.filter (fun x => decide (DataNormalizer.dedupKey x ≠ DataNormalizer.dedupKey e)))).filter
                  (fun x => pk (DataNormalizer.dedupKey x)) := by
              simp [List.filter, hpe2]
            rw [h2]
            rw [← ih (rest.filter (fun x => decide (DataNormalizer.dedupKey x ≠ DataNormalizer.dedupKey e)))
              (le_trans (List.length_filter_le _ _) hrest)]
            rw [List.filter_filter]
            refine congrArg firstOccurrences
              (congrArg (fun p => List.filter p rest) (funext fun x => ?_))
            by_cases hx : DataNormalizer.dedupKey x = DataNormalizer.dedupKey e
            · rw [hx]
              simp [hpe2]
            · simp [hx]

theorem firstOccurrences_idem (n : ℕ) :
    ∀ l : List Dict, l.length ≤ n →
      firstOccurrences (firstOccurrences l) = firstOccurrences l := by
  induction n with
  | zero =>
      intro l hl
      have : l = [] := List.length_eq_zero.mp (Nat.le_zero.mp hl)
      subst this
      simp [firstOccurrences]
  | succ n ih =>
      intro l hl
      cases l with
      | nil => simp [firstOccurrences]
      | cons e rest =>
          have hrest : rest.length ≤ n := Nat.le_of_succ_le_succ hl
          set m := rest.filter
            (fun x => decide (DataNormalizer.dedupKey x ≠ DataNormalizer.dedupKey e)) with hm
          have hmlen : m.length ≤ n := le_trans (List.length_filter_le _ _) hrest
          rw [show firstOccurrences (e :: rest) = e :: firstOccurrences m
            from by simp [firstOccurrences, hm]]
          rw [show firstOccurrences (e :: firstOccurrences m) = e :: firstOccurrences
              ((firstOccurrences m).filter
                (fun x => decide (DataNormalizer.dedupKey x ≠ DataNormalizer.dedupKey e)))
            from by simp [firstOccurrences]]
          congr 1
          rw [← firstOccurrences_filter_comm
            (fun k => decide (k ≠ DataNormalizer.dedupKey e)) n m hmlen]
          have hmm : m.filter
              (fun x => decide (DataNormalizer.dedupKey x ≠ DataNormalizer.dedupKey e)) = m := by
            rw [List.filter_eq_self]
            intro a ha
            rw [hm] at ha
            exact (List.mem_filter.mp ha).2
          rw [hmm, ih m hmlen]

theorem dedup_go_congr_keys {l l' : List Dict}
    (h : List.Forall₂ (fun a b => DataNormalizer.dedupKey a = DataNormalizer.dedupKey b) l l') :
    ∀ seen, List.Forall₂ (fun a b => DataNormalizer.dedupKey a = DataNormalizer.dedupKey b)
      (DataNormalizer.deduplicate_go seen l) (DataNormalizer.deduplicate_go seen l') := by
  induction h with
  | nil => intro seen; simp [DataNormalizer.deduplicate_go]
  | cons hab htail ih =>
      intro seen
      rename_i a b l₂ l₂'
      by_cases hk : DataNormalizer.dedupKey a ∈ seen
      · have hk2 : DataNormalizer.dedupKey b ∈ seen := hab ▸ hk
        simpa [DataNormalizer.deduplicate_go, hk, hk2] using ih seen
      · have hk2 : DataNormalizer.dedupKey b ∉ seen := hab ▸ hk
        simp only [DataNormalizer.deduplicate_go]
        rw [if_neg hk, if_neg hk2]
        refine List.Forall₂.cons hab ?_
        rw [← hab]
        exact ih (DataNormalizer.dedupKey a :: seen)

/-- C1.  Deduplication keys on `(project_id, timestamp)` only: the output
keeps, for each identity key, exactly the first input record bearing it, in
input order (`firstOccurrences`); it is idempotent; and its selection is
insensitive to every field other than the two key fields (two inputs with
pointwise-equal keys deduplicate to pointwise-key-equal outputs of the same
shape). -/
theorem deduplicate_first_wins_idempotent_key_only (l : List Dict) :
    DataNormalizer.deduplicate l = firstOccurrences l ∧
    DataNormalizer.deduplicate (DataNormalizer.deduplicate l) = DataNormalizer.deduplicate l ∧
    ∀ l' : List Dict,
      List.Forall₂ (fun a b => DataNormalizer.dedupKey a = DataNormalizer.dedupKey b) l l' →
        List.Forall₂ (fun a b => DataNormalizer.dedupKey a = DataNormalizer.dedupKey b)
          (DataNormalizer.deduplicate l) (DataNormalizer.deduplicate l') := by
  refine ⟨deduplicate_eq_firstOccurrences l, ?_, ?_⟩
  · rw [deduplicate_eq_firstOccurrences l,
      deduplicate_eq_firstOccurrences (firstOccurrences l),
      firstOccurrences_idem l.length l le_rfl]
  · intro l' h
    exact dedup_go_congr_keys h []

/-- Witness for C1 at a concrete input: two records sharing a key but with
different `co2_tons`, followed by a fresh key; the first record of the
duplicated key survives, deduplication is idempotent on the result, and a
key-equal input with different payloads selects the same positions. -/
theorem deduplicate_first_wins_idempotent_key_only_witness :
    DataNormalizer.deduplicate
        [[("project_id", .str "p"), ("timestamp", .str "t"), ("co2_tons", .num 1)],
         [("project_id", .str "p"), ("timestamp", .str "t"), ("co2_tons", .num 2)],
         [("project_id", .str "q"), ("timestamp", .str "t"), ("co2_tons", .num 3)]] =
      firstOccurrences
        [[("project_id", .str "p"), ("timestamp", .str "t"), ("co2_tons", .num 1)],
         [("project_id", .str "p"), ("timestamp", .str "t"), ("co2_tons", .num 2)],
         [("project_id", .str "q"), ("timestamp", .str "t"), ("co2_tons", .num 3)]] ∧
    List.Forall₂ (fun a b => DataNormalizer.dedupKey a = DataNormalizer.dedupKey b)
      (DataNormalizer.deduplicate
        [[("project_id", .str "p"), ("timestamp", .str "t"), ("co2_tons", .num 1)],
         [("project_id", .str "p"), ("timestamp", .str "t"), ("co2_tons", .num 2)],
         [("project_id", .str "q"), ("timestamp", .str "t"), ("co2_tons", .num 3)]])
      (DataNormalizer.deduplicate
        [[("project_id", .str "p"), ("timestamp", .str "t"), ("co2_tons", .num 9)],
         [("project_id", .str "p"), ("timestamp", .str "t"), ("co2_tons", .num 8)],
         [("project_id", .str "q"), ("timestamp", .str "t"), ("co2_tons", .num 7)]]) := by
  have h := deduplicate_first_wins_idempotent_key_only
    [[("project_id", .str "p"), ("timestamp", .str "t"), ("co2_tons", .num 1)],
     [("project_id", .str "p"), ("timestamp", .str "t"), ("co2_tons", .num 2)],
     [("project_id", .str "q"), ("timestamp", .str "t"), ("co2_tons", .num 3)]]
  refine ⟨h.1, h.2.2 _ ?_⟩
  refine List.Forall₂.cons (by with_unfolding_all rfl) ?_
  refine List.Forall₂.cons (by with_unfolding_all rfl) ?_
  exact List.Forall₂.cons (by with_unfolding_all rfl) List.Forall₂.nil

/-! ## C2: independence of the per-format writes -/

/-- C2 counterexample.  With all three formats selected and the JSON write
failing, `save` attempts only the backup and the JSON write: the CSV and
SQLite writes are never attempted, contradicting the claim that a failure
in one format does not prevent the remaining formats from being
attempted. -/
theorem save_json_failure_blocks_remaining_formats :
    (DataStorage.save ⟨true, false, false, false⟩ [] none).attempted =
      [DataStorage.SaveStep.backup, DataStorage.SaveStep.json] ∧
    DataStorage.SaveStep.csv ∉ (DataStorage.save ⟨true, false, false, false⟩ [] none).attempted ∧
    DataStorage.SaveStep.sqlite ∉ (DataStorage.save ⟨true, false, false, false⟩ [] none).attempted ∧
    (DataStorage.save ⟨true, false, false, false⟩ [] none).failed = some DataStorage.SaveStep.json := by
  with_unfolding_all decide

/-- C2 as amended.  For every batch, selection of formats and failure
environment: after the backup step, `save` attempts the selected formats in
the fixed order JSON, CSV, SQLite only up to and including the first whose
write fails; that failure is re-raised as the outcome of `save`, so every
selected format after it is not attempted (and when no selected format
fails, all selected formats are attempted and `save` succeeds). -/
theorem save_aborts_at_first_failing_format (w : DataStorage.World) (data : List Dict)
    (formats : Option (List String)) :
    DataStorage.save w data formats =
      ⟨DataStorage.SaveStep.backup ::
          DataStorage.takeUntilIncl (DataStorage.stepFails w)
            (DataStorage.selectedSteps (formats.getD ["json", "csv", "sqlite"])),
        (DataStorage.selectedSteps (formats.getD ["json", "csv", "sqlite"])).find?
          (DataStorage.stepFails w)⟩ := by
  set fs := formats.getD ["json", "csv", "sqlite"] with hfs
  by_cases hj : "json" ∈ fs <;> by_cases hc : "csv" ∈ fs <;> by_cases hs : "sqlite" ∈ fs <;>
    rcases hwj : w.jsonFails <;> rcases hwc : w.csvFails <;> rcases hws : w.sqliteFails <;>
      simp [DataStorage.save, DataStorage.selectedSteps, DataStorage.takeUntilIncl,
        DataStorage.stepFails, hj, hc, hs, hwj, hwc, hws, List.find?]

/-! ## C3: the `co2_kg` unit conversion never happens -/

/-- A fixed processing clock used by concrete evaluations. -/
def sampleNow : PyDateTime := ⟨2024, 6, 1, 12, 0, 0, 0, none⟩

/-- C3 evidence.  The alias list of `_extract_co2_tons` contains
`"co2_tons"` twice and no kilogram alias, and none of its entries contains
the substrings `kg`/`kilograms`/`g`/`grams` the conversion branch looks
for, so that branch is unreachable; a raw record carrying `co2_kg = 50000`
extracts `0.0` (not `50.0`) and is dropped by normalization instead of
normalizing to `co2_tons = 50.0`. -/
theorem co2_kg_not_converted :
    DataNormalizer.extract_co2_tons [("co2_kg", .num 50000)] = some 0 ∧
    DataNormalizer.extract_co2_tons [("co2_kg", .num 50000)] ≠ some 50 ∧
    DataNormalizer.normalize
        [[("co2_kg", .num 50000), ("timestamp", .str "2024-01-01T00:00:00Z"),
          ("source", .str "s")]] sampleNow = [] ∧
    DataNormalizer.co2_fields.all (fun f =>
      !(strContains (toLowerStr f) "kg") && !(strContains (toLowerStr f) "kilograms") &&
      !(strContains (toLowerStr f) "g") && !(strContains (toLowerStr f) "grams")) = true := by
  refine ⟨by with_unfolding_all rfl, by with_unfolding_all decide,
    by with_unfolding_all rfl, by with_unfolding_all rfl⟩

/-! ## C4: no CO2 field and no energy field means 0.0, then rejection -/

/-- C4.  A raw record carrying none of the recognized CO2 aliases and no
`energy_kwh` field extracts the CO2 value `0.0`; the normalized candidate
is then rejected by the embedded `CarbonDataPoint` validation (`normalize`
drops it), and independently any record whose `co2_tons` is `0.0` fails
`_is_valid_entry`, so such a record never reaches valid output. -/
theorem no_co2_no_energy_extracts_zero_and_rejected (e : Dict) (now : PyDateTime)
    (hco2 : ∀ f ∈ DataNormalizer.co2_fields, dictGet e f = none)
    (hen : dictGet e "energy_kwh" = none) :
    DataNormalizer.extract_co2_tons e = some 0 ∧
    DataNormalizer.normalize_entry e now = none ∧
    (∀ d : Dict, dictGet d "co2_tons" = some (.num 0) →
      DataNormalizer.is_valid_entry d = false) := by
  have hfind : DataNormalizer.co2_fields.find? (fun f => (dictGet e f).isSome) = none := by
    rw [List.find?_eq_none]
    intro f hf
    simp [hco2 f hf]
  have hx : DataNormalizer.extract_co2_tons e = some 0 := by
    rw [DataNormalizer.extract_co2_tons, hfind,
      DataNormalizer.calculate_co2_from_metrics, hen]
  refine ⟨hx, ?_, ?_⟩
  · rw [DataNormalizer.normalize_entry]
    simp only [hx, Option.bind_eq_bind, Option.some_bind]
    have hne : ¬ (ProcessingConfig.MIN_CO2_TONS ≤ (0 : ℚ) ∧
        (0 : ℚ) ≤ ProcessingConfig.MAX_CO2_TONS) := by
      rintro ⟨h1, -⟩
      rw [ProcessingConfig.MIN_CO2_TONS] at h1
      norm_num at h1
    unfold DataNormalizer.carbonDataPoint
    rw [if_neg hne]
  · intro d hd
    rw [DataNormalizer.is_valid_entry]
    by_cases hreq : ProcessingConfig.REQUIRED_FIELDS.all (fun f => (dictGet d f).isSome) = true
    · rw [if_pos hreq, hd]
      simp [DataNormalizer.pyNumVal]
    · rw [if_neg hreq]

/-- Witness for C4: a record whose only field is unrelated to CO2 and
energy. -/
theorem no_co2_no_energy_extracts_zero_and_rejected_witness :
    DataNormalizer.extract_co2_tons [("foo", .num 1)] = some 0 ∧
    DataNormalizer.normalize_entry [("foo", .num 1)] sampleNow = none := by
  have h := no_co2_no_energy_extracts_zero_and_rejected [("foo", .num 1)] sampleNow
    (by with_unfolding_all decide) (by with_unfolding_all rfl)
  exact ⟨h.1, h.2.1⟩

/-! ## C5: the validation postcondition -/

theorem valid_iff_aux (e : Dict) :
    DataNormalizer.is_valid_entry e = true ↔
      ((∀ f ∈ ProcessingConfig.REQUIRED_FIELDS, (dictGet e f).isSome = true) ∧
       ∃ q, DataNormalizer.pyNumVal ((dictGet e "co2_tons").getD (.num 0)) = some q ∧
         0 < q ∧ ProcessingConfig.MIN_CO2_TONS ≤ q ∧ q ≤ ProcessingConfig.MAX_CO2_TONS ∧
         (match (dictGet e "timestamp").getD (.str "") with
          | .str s => isoParseOk s = true
          | _ => False)) := by
  rw [DataNormalizer.is_valid_entry]
  by_cases hreq : ProcessingConfig.REQUIRED_FIELDS.all (fun f => (dictGet e f).isSome) = true
  · rw [if_pos hreq]
    have hreq2 : ∀ f ∈ ProcessingConfig.REQUIRED_FIELDS, (dictGet e f).isSome = true := by
      simpa [List.all_eq_true] using hreq
    cases hq : DataNormalizer.pyNumVal ((dictGet e "co2_tons").getD (.num 0)) with
    | none => simp [hq]
    | some q =>
        simp only [hq, Option.some.injEq]
        by_cases h1 : q ≤ 0
        · rw [if_pos h1]
          simp only [Bool.false_eq_true, false_iff]
          rintro ⟨-, q', hq', hpos, -⟩
          subst hq'
          exact absurd hpos (not_lt.mpr h1)
        · rw [if_neg h1]
          by_cases h2 : q < ProcessingConfig.MIN_CO2_TONS
          · rw [if_pos h2]
            simp only [Bool.false_eq_true, false_iff]
            rintro ⟨-, q', hq', -, hmin, -⟩
            subst hq'
            exact absurd hmin (not_le.mpr h2)
          · rw [if_neg h2]
            by_cases h3 : ProcessingConfig.MAX_CO2_TONS < q
            · rw [if_pos h3]
              simp only [Bool.false_eq_true, false_iff]
              rintro ⟨-, q', hq', -, -, hmax, -⟩
              subst hq'
              exact absurd hmax (not_le.mpr h3)
            · rw [if_neg h3]
              constructor
              · intro hts
                refine ⟨hreq2, q, rfl, not_le.mp h1, not_lt.mp h2, not_lt.mp h3, ?_⟩
                rcases hv : (dictGet e "timestamp").getD (.str "") with s | q2 | b | _ | l | d | iso <;>
                  rw [hv] at hts <;> simp_all
              · rintro ⟨-, q', hq', -, -, -, hts⟩
                subst hq'
                rcases hv : (dictGet e "timestamp").getD (.str "") with s | q2 | b | _ | l | d | iso <;>
                  rw [hv] at hts <;> simp_all
  · rw [if_neg hreq]
    simp only [Bool.false_eq_true, false_iff]
    rintro ⟨hall, -⟩
    exact hreq (by rw [List.all_eq_true]; intro f hf; exact hall f hf)

/-- C5.  A record survives `clean` iff it passes every rule of
`_is_valid_entry` (required fields present; `co2_tons` numeric; positive;
at least `MIN_CO2_TONS`; at most `MAX_CO2_TONS`; and the timestamp string
parses as ISO-8601 with a trailing `Z` accepted) — with the rules checked
in that source order, the first failure deciding rejection, which for the
boolean verdict coincides with their conjunction — and consequently every
record in the cleaned output has `co2_tons` within the configured
bounds. -/
theorem is_valid_entry_iff_rules_and_bounds (e : Dict) :
    (DataNormalizer.is_valid_entry e = true ↔
      ((∀ f ∈ ProcessingConfig.REQUIRED_FIELDS, (dictGet e f).isSome = true) ∧
       ∃ q, DataNormalizer.pyNumVal ((dictGet e "co2_tons").getD (.num 0)) = some q ∧
         0 < q ∧ ProcessingConfig.MIN_CO2_TONS ≤ q ∧ q ≤ ProcessingConfig.MAX_CO2_TONS ∧
         (match (dictGet e "timestamp").getD (.str "") with
          | .str s => isoParseOk s = true
          | _ => False))) ∧
    (∀ d : List Dict, e ∈ DataNormalizer.clean d ↔
      e ∈ d ∧ DataNormalizer.is_valid_entry e = true) ∧
    (∀ d : List Dict, e ∈ DataNormalizer.clean d →
      ∃ q, DataNormalizer.pyNumVal ((dictGet e "co2_tons").getD (.num 0)) = some q ∧
        ProcessingConfig.MIN_CO2_TONS ≤ q ∧ q ≤ ProcessingConfig.MAX_CO2_TONS) := by
  refine ⟨valid_iff_aux e, ?_, ?_⟩
  · intro d
    rw [DataNormalizer.clean, List.mem_filter]
  · intro d hmem
    have hv : DataNormalizer.is_valid_entry e = true :=
      (List.mem_filter.mp hmem).2
    obtain ⟨-, q, hq, -, hmin, hmax, -⟩ := (valid_iff_aux e).mp hv
    exact ⟨q, hq, hmin, hmax⟩

/-- Witness for C5 at a concrete record that passes every rule. -/
theorem is_valid_entry_iff_rules_and_bounds_witness :
    [("project_id", .str "p"), ("co2_tons", .num 5), ("timestamp", .str "2024-01-01")] ∈
      DataNormalizer.clean
        [[("project_id", .str "p"), ("co2_tons", .num 5), ("timestamp", .str "2024-01-01")]] ∧
    DataNormalizer.is_valid_entry
      [("project_id", .str "p"), ("co2_tons", .num 5), ("timestamp", .str "2024-01-01")] = true := by
  have h := is_valid_entry_iff_rules_and_bounds
    [("project_id", .str "p"), ("co2_tons", .num 5), ("timestamp", .str "2024-01-01")]
  have hvalid : DataNormalizer.is_valid_entry
      [("project_id", .str "p"), ("co2_tons", .num 5), ("timestamp", .str "2024-01-01")] = true := by
    with_unfolding_all rfl
  exact ⟨(h.2.1 _).mpr ⟨by simp, hvalid⟩, hvalid⟩

/-! ## C6: the identifier fallback string -/

/-- Record with no `project_id` and no `id` field, used to exercise the
identifier fallback. -/
def noIdEntry : Dict :=
  [("co2_tons", .num 100), ("timestamp", .str "2024-01-01T00:00:00"), ("source", .str "s")]

/-- The canonical record `_normalize_entry` produces for `noIdEntry`. -/
def noIdResult : Dict :=
  [("project_id", .str "unknown_unknown"), ("co2_tons", .num 100),
   ("timestamp", .str "2024-01-01T00:00:00"), ("source", .str "s"),
   ("location", .vdict []), ("metadata", .vdict []),
   ("verification_status", .str "pending")]

/-- C6 counterexample.  For a raw record with no project identifier and no
other identifier field, normalization assigns the project id
`"unknown_unknown"` (the f-string `unknown_{...}` applied to the inner
default `"unknown"`), not the literal `"unknown"` the claim states. -/
theorem identifier_fallback_is_not_plain_unknown :
    (DataNormalizer.normalize_entry noIdEntry sampleNow).bind
        (fun r => dictGet r "project_id") = some (.str "unknown_unknown") ∧
    (Value.str "unknown_unknown") ≠ (Value.str "unknown") := by
  exact ⟨by with_unfolding_all rfl, by with_unfolding_all decide⟩

/-- C6 as amended.  For every raw record with no `project_id` field and no
`id` field, any canonical record normalization produces carries the
literal string `"unknown_unknown"` as its project id. -/
theorem identifier_fallback_unknown_unknown (e : Dict) (now : PyDateTime) (r : Dict)
    (hpid : dictGet e "project_id" = none) (hid : dictGet e "id" = none)
    (h : DataNormalizer.normalize_entry e now = some r) :
    dictGet r "project_id" = some (.str "unknown_unknown") := by
  rw [DataNormalizer.normalize_entry] at h
  simp only [hpid, hid, Option.getD_none, Option.bind_eq_bind] at h
  cases hx : DataNormalizer.extract_co2_tons e with
  | none => rw [hx] at h; simp at h
  | some co2 =>
      rw [hx] at h
      simp only [Option.some_bind] at h
      rw [DataNormalizer.carbonDataPoint] at h
      by_cases hb : ProcessingConfig.MIN_CO2_TONS ≤ co2 ∧ co2 ≤ ProcessingConfig.MAX_CO2_TONS
      · rw [if_pos hb] at h
        by_cases hts : isoParseOk (DataNormalizer.extract_timestamp e now) = true
        · rw [if_pos hts] at h
          rcases hl : DataNormalizer.asPyDict ((dictGet e "location").getD (.vdict []))
            with _ | ld <;> rw [hl] at h
          · simp at h
          rcases hm : DataNormalizer.asPyDict ((dictGet e "metadata").getD (.vdict []))
            with _ | md <;> rw [hm] at h
          · simp at h
          rcases hv : DataNormalizer.coerceStrField
              ((dictGet e "verification_status").getD (.str "pending")) with _ | vs <;>
            rw [hv] at h
          · simp at h
          · simp only [Option.some_bind, Option.map_some'] at h
            rw [Option.some.injEq] at h
            subst h
            with_unfolding_all rfl
        · rw [if_neg hts] at h; simp at h
      · rw [if_neg hb] at h; simp at h

/-- Witness for C6's amended statement at `noIdEntry`. -/
theorem identifier_fallback_unknown_unknown_witness :
    dictGet noIdResult "project_id" = some (.str "unknown_unknown") :=
  identifier_fallback_unknown_unknown noIdEntry sampleNow noIdResult
    (by with_unfolding_all rfl) (by with_unfolding_all rfl) (by with_unfolding_all rfl)

/-! ## C10: `clean` is the identity on `normalize` output -/

theorem pyRound_zero (n : ℕ) : pyRound n (0 : ℚ) = 0 := by
  rw [pyRound, zero_mul, show ((0 : ℚ)) = ((0 : ℤ) : ℚ) by norm_num, roundHalfEven_intCast]
  norm_num

/-- Every CO2 value `_extract_co2_tons` returns is already rounded to the
configured precision. -/
theorem extract_co2_tons_rounded (e : Dict) (q : ℚ)
    (h : DataNormalizer.extract_co2_tons e = some q) :
    pyRound ProcessingConfig.DEFAULT_DECIMAL_PLACES q = q := by
  rw [DataNormalizer.extract_co2_tons] at h
  split at h
  · split at h
    · rename_i v hv
      cases hp : pyFloat v with
      | none => rw [hp] at h; exact absurd h (by simp)
      | some x =>
          rw [hp] at h
          simp only [Option.bind_eq_bind, Option.some_bind, Option.some.injEq] at h
          rw [← h]
          exact pyRound_idem _ _
    · exact absurd h (by simp)
  · rw [DataNormalizer.calculate_co2_from_metrics] at h
    split at h
    · rename_i v hv
      cases hp : pyFloat v with
      | none => rw [hp] at h; exact absurd h (by simp)
      | some x =>
          rw [hp] at h
          simp only [Option.map_some', Option.some.injEq] at h
          rw [← h]
          exact pyRound_idem _ _
    · simp only [Option.some.injEq] at h
      rw [← h]
      exact pyRound_zero _

/-- `_is_valid_entry` accepts every record of the canonical shape whose
CO2 value is positive and within bounds and whose timestamp parses. -/
theorem is_valid_entry_canonical (P S : String) (C : ℚ) (T : String)
    (L M : List (String × Value)) (V : String)
    (h0 : 0 < C) (hmin : ProcessingConfig.MIN_CO2_TONS ≤ C)
    (hmax : C ≤ ProcessingConfig.MAX_CO2_TONS) (hts : isoParseOk T = true) :
    DataNormalizer.is_valid_entry
      [("project_id", .str P), ("co2_tons", .num C), ("timestamp", .str T),
       ("source", .str S), ("location", .vdict L), ("metadata", .vdict M),
       ("verification_status", .str V)] = true := by
  rw [DataNormalizer.is_valid_entry]
  rw [if_pos (show (ProcessingConfig.REQUIRED_FIELDS.all
      (fun f => (dictGet [("project_id", .str P), ("co2_tons", .num C), ("timestamp", .str T),
        ("source", .str S), ("location", .vdict L), ("metadata", .vdict M),
        ("verification_status", .str V)] f).isSome)) = true
    from by with_unfolding_all rfl)]
  rw [show (dictGet [("project_id", .str P), ("co2_tons", .num C), ("timestamp", .str T),
      ("source", .str S), ("location", .vdict L), ("metadata", .vdict M),
      ("verification_status", .str V)] "co2_tons").getD (.num 0) = Value.num C
    from by with_unfolding_all rfl]
  simp only [DataNormalizer.pyNumVal]
  rw [if_neg (not_le.mpr h0), if_neg (not_lt.mpr hmin), if_neg (not_lt.mpr hmax)]
  rw [show (dictGet [("project_id", .str P), ("co2_tons", .num C), ("timestamp", .str T),
      ("source", .str S), ("location", .vdict L), ("metadata", .vdict M),
      ("verification_status", .str V)] "timestamp").getD (.str "") = Value.str T
    from by with_unfolding_all rfl]
  exact hts

/-- Every record `_normalize_entry` emits passes `_is_valid_entry`. -/
theorem normalize_entry_valid (e : Dict) (now : PyDateTime) (r : Dict)
    (h : DataNormalizer.normalize_entry e now = some r) :
    DataNormalizer.is_valid_entry r = true := by
  rw [DataNormalizer.normalize_entry] at h
  simp only [Option.bind_eq_bind] at h
  cases hx : DataNormalizer.extract_co2_tons e with
  | none => rw [hx] at h; simp at h
  | some co2 =>
      rw [hx] at h
      simp only [Option.some_bind] at h
      rw [DataNormalizer.carbonDataPoint] at h
      by_cases hb : ProcessingConfig.MIN_CO2_TONS ≤ co2 ∧ co2 ≤ ProcessingConfig.MAX_CO2_TONS
      · rw [if_pos hb] at h
        by_cases hts : isoParseOk (DataNormalizer.extract_timestamp e now) = true
        · rw [if_pos hts] at h
          rcases hl : DataNormalizer.asPyDict ((dictGet e "location").getD (.vdict []))
            with _ | ld <;> rw [hl] at h
          · simp at h
          rcases hm : DataNormalizer.asPyDict ((dictGet e "metadata").getD (.vdict []))
            with _ | md <;> rw [hm] at h
          · simp at h
          rcases hv : DataNormalizer.coerceStrField
              ((dictGet e "verification_status").getD (.str "pending")) with _ | vs <;>
            rw [hv] at h
          · simp at h
          · simp only [Option.some_bind, Option.map_some'] at h
            rw [Option.some.injEq] at h
            subst h
            have hC : pyRound ProcessingConfig.DEFAULT_DECIMAL_PLACES co2 = co2 :=
              extract_co2_tons_rounded e co2 hx
            rw [hC]
            have hMINpos : (0 : ℚ) < ProcessingConfig.MIN_CO2_TONS := by
              rw [ProcessingConfig.MIN_CO2_TONS]; norm_num
            exact is_valid_entry_canonical _ _ co2 _ ld md vs
              (lt_of_lt_of_le hMINpos hb.1) hb.1 hb.2 hts
        · rw [if_neg hts] at h; simp at h
      · rw [if_neg hb] at h; simp at h

/-- C10.  Validation is the identity on the normalizer's output: every
record `normalize` emits already satisfies every rule `clean` checks
(because the embedded `CarbonDataPoint` model enforces the same bounds,
rounding and timestamp parse and drops failing records first), so
`clean (normalize raw now) = normalize raw now` for every raw batch and
clock. -/
theorem clean_normalize_eq_normalize (raw : List Dict) (now : PyDateTime) :
    DataNormalizer.clean (DataNormalizer.normalize raw now) =
      DataNormalizer.normalize raw now := by
  rw [DataNormalizer.clean, List.filter_eq_self]
  intro r hr
  rw [DataNormalizer.normalize] at hr
  obtain ⟨e, -, he⟩ := List.mem_filterMap.mp hr
  exact normalize_entry_valid e now r he

/-! ## C8: the tabular write on an empty batch -/

/-- C8.  When the input batch is empty, `_save_csv` writes no file (the
previous tabular file, if any, is unchanged) and reports the no-op
warning; for any non-empty batch the outcome is never that warning (the
batch is either written or an error is raised), so the warning outcome is
exactly the empty-batch no-op. -/
theorem save_csv_empty_is_noop_warning (data : List Dict) (prev : Option DataStorage.CsvFile) :
    (data = [] → DataStorage.save_csv data prev = (prev, .warnedEmpty)) ∧
    (data ≠ [] → (DataStorage.save_csv data prev).2 ≠ DataStorage.CsvOutcome.warnedEmpty) := by
  constructor
  · intro hd
    subst hd
    rw [DataStorage.save_csv]
    simp
  · intro hd
    rw [DataStorage.save_csv, if_neg hd]
    cases hm : data.mapM (fun r => DataStorage.flatten_dict r "") with
    | none => simp
    | some flatRows => simp

/-- Witness for C8: an empty batch against an existing previous file, and
a one-record batch for the contrast. -/
theorem save_csv_empty_is_noop_warning_witness :
    DataStorage.save_csv [] (some ⟨["a"], [[("a", .num 1)]]⟩) =
      (some ⟨["a"], [[("a", .num 1)]]⟩, .warnedEmpty) ∧
    (DataStorage.save_csv [[("a", .num 1)]] none).2 ≠ DataStorage.CsvOutcome.warnedEmpty := by
  exact ⟨(save_csv_empty_is_noop_warning [] (some ⟨["a"], [[("a", .num 1)]]⟩)).1 rfl,
    (save_csv_empty_is_noop_warning [[("a", .num 1)]] none).2 (by simp)⟩

/-! ## C9: relational read-back -/

theorem sqliteValLe_total (a b : Value) :
    DataStorage.sqliteValLe a b = true ∨ DataStorage.sqliteValLe b a = true := by
  rw [DataStorage.sqliteValLe, DataStorage.sqliteValLe, decide_eq_true_eq, decide_eq_true_eq]
  rcases Nat.lt_trichotomy (DataStorage.sqliteValRank a) (DataStorage.sqliteValRank b) with h | h | h
  · exact Or.inl (Or.inl h)
  · rcases lt_trichotomy (DataStorage.vnum a) (DataStorage.vnum b) with h2 | h2 | h2
    · exact Or.inl (Or.inr ⟨h, Or.inl h2⟩)
    · rcases le_total (DataStorage.vstr a) (DataStorage.vstr b) with h3 | h3
      · exact Or.inl (Or.inr ⟨h, Or.inr ⟨h2, h3⟩⟩)
      · exact Or.inr (Or.inr ⟨h.symm, Or.inr ⟨h2.symm, h3⟩⟩)
    · exact Or.inr (Or.inr ⟨h.symm, Or.inl h2⟩)
  · exact Or.inr (Or.inl h)

theorem sqliteValLe_trans (a b c : Value) (h1 : DataStorage.sqliteValLe a b = true)
    (h2 : DataStorage.sqliteValLe b c = true) : DataStorage.sqliteValLe a c = true := by
  rw [DataStorage.sqliteValLe, decide_eq_true_eq] at h1 h2 ⊢
  rcases h1 with h1 | ⟨h1e, h1'⟩
  · rcases h2 with h2 | ⟨h2e, -⟩
    · exact Or.inl (lt_trans h1 h2)
    · exact Or.inl (h2e ▸ h1)
  · rcases h2 with h2 | ⟨h2e, h2'⟩
    · exact Or.inl (h1e ▸ h2)
    · refine Or.inr ⟨h1e.trans h2e, ?_⟩
      rcases h1' with h1' | ⟨h1n, h1s⟩
      · rcases h2' with h2' | ⟨h2n, -⟩
        · exact Or.inl (lt_trans h1' h2')
        · exact Or.inl (h2n ▸ h1')
      · rcases h2' with h2' | ⟨h2n, h2s⟩
        · exact Or.inl (h1n ▸ h2')
        · exact Or.inr ⟨h1n.trans h2n, le_trans h1s h2s⟩

instance : IsTotal DataStorage.SqliteRow DataStorage.rowDescRel :=
  ⟨fun a b => (sqliteValLe_total b.timestamp a.timestamp).imp id id⟩

instance : IsTrans DataStorage.SqliteRow DataStorage.rowDescRel :=
  ⟨fun _ _ _ h1 h2 => sqliteValLe_trans _ _ _ h2 h1⟩

namespace DataStorage

/-- Specification-side check that a blob column can be reconstructed
without raising: absent (`NULL`), empty, or parseable. -/
def blobOk : Option String → Bool
  | none => true
  | some s => s = "" || (jsonLoads s).isSome

/-- Specification-side reconstruction of a blob column that passes
`blobOk`: absent or empty degrades to the empty mapping. -/
def restoreBlobOk : Option String → Value
  | none => .vdict []
  | some s => if s = "" then .vdict [] else (jsonLoads s).getD (.vdict [])

/-- Whether both blob columns of a row reconstruct without raising. -/
def rowOk (r : SqliteRow) : Bool := blobOk r.location && blobOk r.metadata

/-- Specification-side record for a row passing `rowOk`. -/
def rowRecordOk (r : SqliteRow) : Dict :=
  [("project_id", r.project_id), ("co2_tons", r.co2_tons),
   ("timestamp", r.timestamp), ("source", r.source),
   ("location", restoreBlobOk r.location), ("metadata", restoreBlobOk r.metadata),
   ("verification_status", r.verification_status)]

end DataStorage

theorem restoreBlob_of_blobOk (b : Option String) (h : DataStorage.blobOk b = true) :
    DataStorage.restoreBlob b = .ok (DataStorage.restoreBlobOk b) := by
  cases b with
  | none => rfl
  | some s =>
      rw [DataStorage.blobOk] at h
      rw [DataStorage.restoreBlob, DataStorage.restoreBlobOk]
      by_cases hs : s = ""
      · rw [if_pos hs, if_pos hs]
      · rw [if_neg hs, if_neg hs]
        rcases hj : jsonLoads s with _ | v
        · rw [hj] at h
          simp [hs] at h
        · simp [hj]

theorem restoreBlob_of_not_blobOk (b : Option String) (h : DataStorage.blobOk b = false) :
    DataStorage.restoreBlob b = .error () := by
  cases b with
  | none => exact absurd h (by simp [DataStorage.blobOk])
  | some s =>
      rw [DataStorage.blobOk] at h
      simp only [Bool.or_eq_false_iff, decide_eq_false_iff_not] at h
      have hj : jsonLoads s = none := by
        rcases hjs : jsonLoads s with _ | v
        · rfl
        · rw [hjs] at h
          simp at h
      rw [DataStorage.restoreBlob, if_neg h.1, hj]

theorem rowRecord_of_rowOk (r : DataStorage.SqliteRow) (h : DataStorage.rowOk r = true) :
    DataStorage.rowRecord r = .ok (DataStorage.rowRecordOk r) := by
  rw [DataStorage.rowOk, Bool.and_eq_true] at h
  rw [DataStorage.rowRecord, restoreBlob_of_blobOk _ h.1, restoreBlob_of_blobOk _ h.2]
  rfl

theorem rowRecord_of_not_rowOk (r : DataStorage.SqliteRow) (h : DataStorage.rowOk r = false) :
    DataStorage.rowRecord r = .error () := by
  rw [DataStorage.rowOk, Bool.and_eq_false_iff] at h
  rcases h with h | h
  · rw [DataStorage.rowRecord, restoreBlob_of_not_blobOk _ h]
    rfl
  · rw [DataStorage.rowRecord]
    rcases hb : DataStorage.restoreBlob r.location with u | loc
    · rfl
    · rw [restoreBlob_of_not_blobOk _ h]
      rfl

theorem loadRowsLoop_all_ok (l : List DataStorage.SqliteRow)
    (h : ∀ r ∈ l, DataStorage.rowOk r = true) :
    DataStorage.loadRowsLoop l = .ok (l.map DataStorage.rowRecordOk) := by
  induction l with
  | nil => rfl
  | cons r rest ih =>
      rw [DataStorage.loadRowsLoop]
      rw [rowRecord_of_rowOk r (h r (by simp)), ih (fun x hx => h x (by simp [hx]))]
      rfl

theorem loadRowsLoop_some_bad (l : List DataStorage.SqliteRow)
    (h : ∃ r ∈ l, DataStorage.rowOk r = false) :
    DataStorage.loadRowsLoop l = .error () := by
  induction l with
  | nil => simp at h
  | cons r rest ih =>
      rw [DataStorage.loadRowsLoop]
      by_cases hr : DataStorage.rowOk r = true
      · rw [rowRecord_of_rowOk r hr]
        have hrest : ∃ x ∈ rest, DataStorage.rowOk x = false := by
          rcases h with ⟨x, hx, hxf⟩
          rcases List.mem_cons.mp hx with rfl | hx2
          · exact absurd hr (by simp [hxf])
          · exact ⟨x, hx2, hxf⟩
        rw [ih hrest]
        rfl
      · rw [rowRecord_of_not_rowOk r (by simpa using hr)]
        rfl

theorem applyLimit_pairwise (limit : Option ℤ) (rows : List DataStorage.SqliteRow)
    (h : List.Pairwise DataStorage.rowDescRel rows) :
    List.Pairwise DataStorage.rowDescRel (DataStorage.applyLimit limit rows) := by
  cases limit with
  | none => exact h
  | some n =>
      rw [DataStorage.applyLimit]
      by_cases hn : n ≤ 0
      · rw [if_pos hn]; exact h
      · rw [if_neg hn]
        exact List.Pairwise.sublist (List.take_sublist _ _) h

/-- C9 as amended.  `load_sqlite` considers the rows sorted by timestamp
descending, truncated by the limit when it is positive (a `None`, zero or
negative limit selects everything); if every selected row's blob columns
are absent, empty or parseable, the result is exactly the per-row
reconstruction, with absent/empty blobs degraded to empty mappings; but if
any selected row carries a corrupt (non-empty, unparseable) blob, the
exception aborts the whole read and the result is the empty list — the
remaining rows are lost, not preserved.  The selection is always sorted
descending and respects a positive limit. -/
theorem load_sqlite_order_limit_degradation (t : DataStorage.SqliteTable) (limit : Option ℤ) :
    ((∀ r ∈ DataStorage.applyLimit limit (DataStorage.sortRowsDesc t.rows),
        DataStorage.rowOk r = true) →
      DataStorage.load_sqlite t limit =
        (DataStorage.applyLimit limit (DataStorage.sortRowsDesc t.rows)).map
          DataStorage.rowRecordOk) ∧
    ((∃ r ∈ DataStorage.applyLimit limit (DataStorage.sortRowsDesc t.rows),
        DataStorage.rowOk r = false) →
      DataStorage.load_sqlite t limit = []) ∧
    List.Pairwise DataStorage.rowDescRel
      (DataStorage.applyLimit limit (DataStorage.sortRowsDesc t.rows)) ∧
    (∀ n : ℤ, limit = some n → 0 < n →
      (DataStorage.load_sqlite t limit).length ≤ n.toNat) := by
  refine ⟨?_, ?_, ?_, ?_⟩
  · intro h
    rw [DataStorage.load_sqlite, loadRowsLoop_all_ok _ h]
  · intro h
    rw [DataStorage.load_sqlite, loadRowsLoop_some_bad _ h]
  · exact applyLimit_pairwise limit _
      (List.sorted_insertionSort DataStorage.rowDescRel t.rows)
  · intro n hn hpos
    subst hn
    have hsel : (DataStorage.applyLimit (some n) (DataStorage.sortRowsDesc t.rows)).length ≤
        n.toNat := by
      rw [DataStorage.applyLimit, if_neg (not_le.mpr hpos)]
      simp [List.length_take]
    rw [DataStorage.load_sqlite]
    rcases hl : DataStorage.loadRowsLoop
        (DataStorage.applyLimit (some n) (DataStorage.sortRowsDesc t.rows)) with u | l
    · simp
    · have : l.length = (DataStorage.applyLimit (some n) (DataStorage.sortRowsDesc t.rows)).length := by
        by_cases hok : ∀ r ∈ DataStorage.applyLimit (some n) (DataStorage.sortRowsDesc t.rows),
          DataStorage.rowOk r = true
        · rw [loadRowsLoop_all_ok _ hok] at hl
          rw [← Except.ok.injEq _ _ |>.mp hl]
          simp
        · push_neg at hok
          obtain ⟨r, hr, hrf⟩ := hok
          rw [loadRowsLoop_some_bad _ ⟨r, hr, by simpa using hrf⟩] at hl
          exact absurd hl (by simp)
      simpa [this] using hsel

/-- A row whose blobs are well-formed. -/
def goodRow : DataStorage.SqliteRow :=
  ⟨1, .str "p1", .num 5, .str "2024-01-02T00:00:00", .str "s",
    some "\x7b\x7d", some "\x7b\x7d", .str "pending", "2024-06-01"⟩

/-- A row whose location blob is non-empty and not valid JSON. -/
def corruptRow : DataStorage.SqliteRow :=
  ⟨2, .str "p2", .num 6, .str "2024-01-01T00:00:00", .str "s",
    some "x", some "\x7b\x7d", .str "pending", "2024-06-01"⟩

/-- C9 counterexample.  In a table holding one intact row and one row with
a corrupt location blob, `load_sqlite` returns the empty list — the
corrupt row is not degraded to an empty mapping and the intact row is not
read either — although the intact row alone reads back fine.  This
contradicts the claim that corruption degrades only the affected field
without failing the read of the remaining rows. -/
theorem load_sqlite_corrupt_blob_aborts_whole_read :
    DataStorage.load_sqlite ⟨[goodRow, corruptRow], 3⟩ none = [] ∧
    DataStorage.load_sqlite ⟨[goodRow], 2⟩ none =
      [[("project_id", .str "p1"), ("co2_tons", .num 5),
        ("timestamp", .str "2024-01-02T00:00:00"), ("source", .str "s"),
        ("location", .vdict []), ("metadata", .vdict []),
        ("verification_status", .str "pending")]] := by
  exact ⟨by with_unfolding_all rfl, by with_unfolding_all rfl⟩

/-- Witness for C9's amended statement: with only the intact row selected,
the read succeeds and degrades its empty-object blobs to empty mappings. -/
theorem load_sqlite_order_limit_degradation_witness :
    DataStorage.load_sqlite ⟨[goodRow], 2⟩ none =
      (DataStorage.applyLimit none (DataStorage.sortRowsDesc [goodRow])).map
        DataStorage.rowRecordOk :=
  (load_sqlite_order_limit_degradation ⟨[goodRow], 2⟩ none).1
    (by with_unfolding_all decide)

/-! ## C7: relational upsert idempotence -/

namespace DataStorage

/-- The `UNIQUE(project_id, timestamp)` key of a stored row. -/
def rowKey (r : SqliteRow) : Value × Value := (r.project_id, r.timestamp)

/-- The record-derived columns of a row (everything except the internal
`id` and the write-time `created_at`). -/
def rowContent (r : SqliteRow) :
    Value × Value × Value × Value × Option String × Option String × Value :=
  (r.project_id, r.co2_tons, r.timestamp, r.source, r.location, r.metadata,
   r.verification_status)

/-- The row with a given key, if any. -/
def findRow (k : Value × Value) (rows : List SqliteRow) : Option SqliteRow :=
  rows.find? (fun r => rowKey r = k)

/-- The key the columns bound for a record produce. -/
def recKey (rec : Dict) : Option (Value × Value) :=
  (recordRowData rec).map (fun d => (d.1, d.2.2.1))

/-- The record-derived columns bound for a record. -/
def rowContentOf (rec : Dict) :
    Option (Value × Value × Value × Value × Option String × Option String × Value) :=
  (recordRowData rec).map (fun d =>
    (d.1, d.2.1, d.2.2.1, d.2.2.2.1, some d.2.2.2.2.1, some d.2.2.2.2.2.1, d.2.2.2.2.2.2))

/-- The last record of a batch bound to a given key (the one whose upsert
wins). -/
def lastWithKey (k : Value × Value) : List Dict → Option Dict
  | [] => none
  | rec :: rest =>
      match lastWithKey k rest with
      | some x => some x
      | none => if recKey rec = some k then some rec else none

end DataStorage

theorem rowKey_eq_iff (s r : DataStorage.SqliteRow) :
    (s.project_id = r.project_id ∧ s.timestamp = r.timestamp) ↔
      DataStorage.rowKey s = DataStorage.rowKey r := by
  rw [DataStorage.rowKey, DataStorage.rowKey, Prod.mk.injEq]

theorem findRow_cons (s : DataStorage.SqliteRow) (rows : List DataStorage.SqliteRow)
    (k : Value × Value) :
    DataStorage.findRow k (s :: rows) =
      if DataStorage.rowKey s = k then some s else DataStorage.findRow k rows := by
  by_cases h : DataStorage.rowKey s = k <;> simp [DataStorage.findRow, List.find?, h]

theorem findRow_upsert (rows : List DataStorage.SqliteRow) (r : DataStorage.SqliteRow)
    (k : Value × Value) :
    DataStorage.findRow k (DataStorage.upsertRow rows r) =
      if DataStorage.rowKey r = k then some r else DataStorage.findRow k rows := by
  induction rows with
  | nil =>
      rw [DataStorage.upsertRow]
      by_cases hk : DataStorage.rowKey r = k
      · simp [DataStorage.findRow, List.find?, hk]
      · simp [DataStorage.findRow, List.find?, hk]
  | cons s t ih =>
      rw [DataStorage.upsertRow]
      by_cases hs : DataStorage.rowKey s = DataStorage.rowKey r
      · rw [List.filter_cons_of_neg (by
          simp only [decide_eq_true_eq, not_not]
          exact (rowKey_eq_iff s r).mpr hs)]
        rw [DataStorage.upsertRow] at ih
        rw [ih]
        by_cases hk : DataStorage.rowKey r = k
        · rw [if_pos hk, if_pos hk]
        · rw [if_neg hk, if_neg hk, findRow_cons, if_neg (fun hsk => hk (hs ▸ hsk))]
      · rw [List.filter_cons_of_pos (by
          simp only [decide_eq_true_eq]
          intro hcon
          exact hs ((rowKey_eq_iff s r).mp hcon))]
        rw [List.cons_append, findRow_cons]
        rw [DataStorage.upsertRow] at ih
        by_cases hsk : DataStorage.rowKey s = k
        · rw [if_pos hsk]
          have hk : DataStorage.rowKey r ≠ k := fun hk => hs (hk ▸ hsk)
          rw [if_neg hk, findRow_cons, if_pos hsk]
        · rw [if_neg hsk, ih, findRow_cons, if_neg hsk]

/-- What the key `k` maps to after saving batch `d` over rows `rows`: the
columns of the last record of `d` with that key, or else whatever the key
mapped to before. -/
def DataStorage.upsertSpec (k : Value × Value) (d : List Dict)
    (rows : List DataStorage.SqliteRow) :
    Option (Value × Value × Value × Value × Option String × Option String × Value) :=
  match DataStorage.lastWithKey k d with
  | some rec => DataStorage.rowContentOf rec
  | none => (DataStorage.findRow k rows).map DataStorage.rowContent

theorem save_go_ok_any (d : List Dict) :
    ∀ (now1 : String) (t T : DataStorage.SqliteTable),
      DataStorage.save_sqlite_go now1 d t = .ok T →
      ∀ (now2 : String) (t2 : DataStorage.SqliteTable),
        ∃ T2, DataStorage.save_sqlite_go now2 d t2 = .ok T2 := by
  induction d with
  | nil => exact fun now1 t T h now2 t2 => ⟨t2, rfl⟩
  | cons rec rest ih =>
      intro now1 t T h now2 t2
      rw [DataStorage.save_sqlite_go] at h
      split at h
      · exact absurd h (by simp)
      · rename_i pid co2 ts src loc meta vstat heq
        rw [DataStorage.save_sqlite_go]
        simp only [heq]
        exact ih now1 _ T h now2 _

theorem save_go_find (d : List Dict) :
    ∀ (now : String) (t T : DataStorage.SqliteTable),
      DataStorage.save_sqlite_go now d t = .ok T →
      ∀ k, (DataStorage.findRow k T.rows).map DataStorage.rowContent =
        DataStorage.upsertSpec k d t.rows := by
  induction d with
  | nil =>
      intro now t T h k
      rw [DataStorage.save_sqlite_go] at h
      injection h with h2
      subst h2
      simp [DataStorage.upsertSpec, DataStorage.lastWithKey]
  | cons rec rest ih =>
      intro now t T h k
      rw [DataStorage.save_sqlite_go] at h
      split at h
      · exact absurd h (by simp)
      · rename_i pid co2 ts src loc meta vstat heq
        have hih := ih now _ T h k
        cases hlast : DataStorage.lastWithKey k rest with
        | some x =>
            rw [DataStorage.upsertSpec] at hih ⊢
            simp only [DataStorage.lastWithKey, hlast] at hih ⊢
            exact hih
        | none =>
            rw [DataStorage.upsertSpec] at hih ⊢
            simp only [DataStorage.lastWithKey, hlast] at hih ⊢
            rw [findRow_upsert] at hih
            have hrk : DataStorage.recKey rec = some (pid, ts) := by
              rw [DataStorage.recKey, heq]
              rfl
            by_cases hk : ((pid, ts) : Value × Value) = k
            · rw [if_pos (show DataStorage.rowKey
                  ⟨t.nextId, pid, co2, ts, src, some loc, some meta, vstat, now⟩ = k
                from hk)] at hih
              rw [if_pos (by rw [hrk, hk])]
              rw [hih]
              show _ = DataStorage.rowContentOf rec
              rw [show DataStorage.rowContentOf rec =
                  some (pid, co2, ts, src, some loc, some meta, vstat) from by
                unfold DataStorage.rowContentOf
                rw [heq]
                rfl]
              rfl
            · rw [if_neg (show ¬ DataStorage.rowKey
                  ⟨t.nextId, pid, co2, ts, src, some loc, some meta, vstat, now⟩ = k
                from hk)] at hih
              rw [if_neg (by rw [hrk]; simpa using hk)]
              exact hih

theorem mem_keys_upsert (rows : List DataStorage.SqliteRow) (r : DataStorage.SqliteRow)
    (k : Value × Value) :
    k ∈ (DataStorage.upsertRow rows r).map DataStorage.rowKey ↔
      (k ∈ rows.map DataStorage.rowKey ∨ k = DataStorage.rowKey r) := by
  rw [DataStorage.upsertRow, List.map_append, List.mem_append]
  constructor
  · rintro (hk | hk)
    · obtain ⟨s, hs, rfl⟩ := List.mem_map.mp hk
      exact Or.inl (List.mem_map.mpr ⟨s, (List.mem_filter.mp hs).1, rfl⟩)
    · simp only [List.map_cons, List.map_nil, List.mem_singleton] at hk
      exact Or.inr hk
  · rintro (hk | rfl)
    · obtain ⟨s, hs, rfl⟩ := List.mem_map.mp hk
      by_cases hsr : DataStorage.rowKey s = DataStorage.rowKey r
      · right
        simp only [List.map_cons, List.map_nil, List.mem_singleton]
        exact hsr
      · left
        refine List.mem_map.mpr ⟨s, List.mem_filter.mpr ⟨hs, ?_⟩, rfl⟩
        simp only [decide_eq_true_eq]
        intro hcon
        exact hsr ((rowKey_eq_iff s r).mp hcon)
    · right
      simp

theorem save_go_keys (d : List Dict) :
    ∀ (now : String) (t T : DataStorage.SqliteTable),
      DataStorage.save_sqlite_go now d t = .ok T →
      ∀ k, (k ∈ T.rows.map DataStorage.rowKey ↔
        (k ∈ t.rows.map DataStorage.rowKey ∨ ∃ rec ∈ d, DataStorage.recKey rec = some k)) := by
  induction d with
  | nil =>
      intro now t T h k
      rw [DataStorage.save_sqlite_go] at h
      injection h with h2
      subst h2
      simp
  | cons rec rest ih =>
      intro now t T h k
      rw [DataStorage.save_sqlite_go] at h
      split at h
      · exact absurd h (by simp)
      · rename_i pid co2 ts src loc meta vstat heq
        have hih := ih now _ T h k
        rw [hih]
        rw [mem_keys_upsert]
        have hrk : DataStorage.recKey rec = some (pid, ts) := by
          rw [DataStorage.recKey, heq]
          rfl
        have hkey : DataStorage.rowKey
            ⟨t.nextId, pid, co2, ts, src, some loc, some meta, vstat, now⟩ = (pid, ts) := rfl
        rw [hkey]
        constructor
        · rintro ((hk | hk) | ⟨x, hx, hxk⟩)
          · exact Or.inl hk
          · exact Or.inr ⟨rec, by simp, by rw [hrk, hk]⟩
          · exact Or.inr ⟨x, by simp [hx], hxk⟩
        · rintro (hk | ⟨x, hx, hxk⟩)
          · exact Or.inl (Or.inl hk)
          · rcases List.mem_cons.mp hx with rfl | hx2
            · rw [hrk] at hxk
              exact Or.inl (Or.inr (by injection hxk with h3; rw [h3]))
            · exact Or.inr ⟨x, hx2, hxk⟩

theorem upsert_nodup (rows : List DataStorage.SqliteRow) (r : DataStorage.SqliteRow)
    (h : List.Pairwise (fun a b => DataStorage.rowKey a ≠ DataStorage.rowKey b) rows) :
    List.Pairwise (fun a b => DataStorage.rowKey a ≠ DataStorage.rowKey b)
      (DataStorage.upsertRow rows r) := by
  rw [DataStorage.upsertRow, List.pairwise_append]
  refine ⟨h.sublist (List.filter_sublist _), List.pairwise_singleton _ _, ?_⟩
  intro a ha b hb
  simp only [List.mem_singleton] at hb
  subst hb
  have := (List.mem_filter.mp ha).2
  simp only [decide_eq_true_eq] at this
  intro hcon
  exact this ((rowKey_eq_iff a b).mpr hcon)

theorem save_go_nodup (d : List Dict) :
    ∀ (now : String) (t T : DataStorage.SqliteTable),
      DataStorage.save_sqlite_go now d t = .ok T →
      List.Pairwise (fun a b => DataStorage.rowKey a ≠ DataStorage.rowKey b) t.rows →
      List.Pairwise (fun a b => DataStorage.rowKey a ≠ DataStorage.rowKey b) T.rows := by
  induction d with
  | nil =>
      intro now t T h hnd
      rw [DataStorage.save_sqlite_go] at h
      injection h with h2
      subst h2
      exact hnd
  | cons rec rest ih =>
      intro now t T h hnd
      rw [DataStorage.save_sqlite_go] at h
      split at h
      · exact absurd h (by simp)
      · rename_i pid co2 ts src loc meta vstat heq
        exact ih now _ T h (upsert_nodup _ _ hnd)

theorem length_eq_of_same_keys (rows1 rows2 : List DataStorage.SqliteRow)
    (h1 : List.Pairwise (fun a b => DataStorage.rowKey a ≠ DataStorage.rowKey b) rows1)
    (h2 : List.Pairwise (fun a b => DataStorage.rowKey a ≠ DataStorage.rowKey b) rows2)
    (h : ∀ k, k ∈ rows1.map DataStorage.rowKey ↔ k ∈ rows2.map DataStorage.rowKey) :
    rows1.length = rows2.length := by
  have n1 : (rows1.map DataStorage.rowKey).Nodup := by
    rw [List.Nodup, List.pairwise_map]
    exact h1
  have n2 : (rows2.map DataStorage.rowKey).Nodup := by
    rw [List.Nodup, List.pairwise_map]
    exact h2
  have hfs : (rows1.map DataStorage.rowKey).toFinset = (rows2.map DataStorage.rowKey).toFinset :=
    Finset.ext fun k => by
      rw [List.mem_toFinset, List.mem_toFinset]
      exact h k
  calc rows1.length = (rows1.map DataStorage.rowKey).length := (List.length_map _ _).symm
    _ = (rows1.map DataStorage.rowKey).toFinset.card := (List.toFinset_card_of_nodup n1).symm
    _ = (rows2.map DataStorage.rowKey).toFinset.card := by rw [hfs]
    _ = (rows2.map DataStorage.rowKey).length := List.toFinset_card_of_nodup n2
    _ = rows2.length := List.length_map _ _

/-- C7.  Relational upsert idempotence: starting from any table satisfying
the `UNIQUE(project_id, timestamp)` invariant, if saving a batch succeeds
then saving the same batch again (possibly at a later write clock) also
succeeds and leaves the table with the same row count and the same
record-derived column values per key: a new key inserts, and an existing
key has all its record columns replaced by the (last) matching record's
values.  Internal row ids and `created_at` are outside this content
comparison, as the claim allows. -/
theorem save_sqlite_twice_same_content (data : List Dict) (now1 now2 : String)
    (t t1 : DataStorage.SqliteTable)
    (hnd : List.Pairwise (fun a b => DataStorage.rowKey a ≠ DataStorage.rowKey b) t.rows)
    (h1 : DataStorage.save_sqlite data now1 t = .ok t1) :
    ∃ t2, DataStorage.save_sqlite data now2 t1 = .ok t2 ∧
      t2.rows.length = t1.rows.length ∧
      ∀ k, (DataStorage.findRow k t2.rows).map DataStorage.rowContent =
        (DataStorage.findRow k t1.rows).map DataStorage.rowContent := by
  rw [DataStorage.save_sqlite] at h1
  obtain ⟨t2, h2⟩ := save_go_ok_any data now1 t t1 h1 now2 t1
  refine ⟨t2, h2, ?_, ?_⟩
  · have hnd1 := save_go_nodup data now1 t t1 h1 hnd
    have hnd2 := save_go_nodup data now2 t1 t2 h2 hnd1
    refine length_eq_of_same_keys t2.rows t1.rows hnd2 hnd1 ?_
    intro k
    rw [save_go_keys data now2 t1 t2 h2 k, save_go_keys data now1 t t1 h1 k]
    tauto
  · intro k
    rw [save_go_find data now2 t1 t2 h2 k]
    rw [DataStorage.upsertSpec]
    cases hlast : DataStorage.lastWithKey k data with
    | some rec =>
        have hfirst := save_go_find data now1 t t1 h1 k
        rw [DataStorage.upsertSpec, hlast] at hfirst
        exact hfirst.symm
    | none => rfl

/-- First record of the C7 witness batch. -/
def recA : Dict :=
  [("project_id", .str "p1"), ("co2_tons", .num 5),
   ("timestamp", .str "2024-01-01T00:00:00"), ("source", .str "s")]

/-- Second record of the C7 witness batch: same key, different CO2. -/
def recB : Dict :=
  [("project_id", .str "p1"), ("co2_tons", .num 6),
   ("timestamp", .str "2024-01-01T00:00:00"), ("source", .str "s")]

/-- The table after saving `[recA, recB]` once into an empty table. -/
def tableAB : DataStorage.SqliteTable :=
  ⟨[⟨2, .str "p1", .num 6, .str "2024-01-01T00:00:00", .str "s",
     some "\x7b\x7d", some "\x7b\x7d", .str "pending", "n1"⟩], 3⟩

/-- Witness for C7: a concrete batch with a duplicated key saved into the
empty table; saving it again succeeds and preserves row count and per-key
content. -/
theorem save_sqlite_twice_same_content_witness :
    ∃ t2, DataStorage.save_sqlite [recA, recB] "n2" tableAB = .ok t2 ∧
      t2.rows.length = tableAB.rows.length ∧
      ∀ k, (DataStorage.findRow k t2.rows).map DataStorage.rowContent =
        (DataStorage.findRow k tableAB.rows).map DataStorage.rowContent :=
  save_sqlite_twice_same_content [recA, recB] "n1" "n2" DataStorage.emptyTable tableAB
    (by simp [DataStorage.emptyTable]) (by with_unfolding_all rfl)
